import Mathlib

/-!
# Flyweight: the interning cache, the car and its builders

A shallow embedding of `src/Flyweight/main.cpp`.

* A `std::string` is a sequence of bytes (`CppString`); source literals are
  written `lit "..."`, their UTF-8 bytes.
* `unordered_map<string, Flyweight>` is a list of nodes `(key, value)`.  Nodes
  are only ever appended or overwritten in place, so the position of a node in
  the list stands for its address: a `Flyweight *` is such a position.
* `cout` output of `getFlyweight` is returned as a list of `Event`s.
* Values that C++ leaves indeterminate (members without an initialiser) are
  parameters of the embedded constructor.
* `main` is a function of an `Environment`, which fixes what the standard
  leaves open: the signedness of plain `char` and those indeterminate values.
-/

namespace OOPFlyweight

/-! ## Strings -/

/-- One `char` of a `std::string`, as the byte it stores. -/
abbrev Byte := Fin 256

/-- The model of `std::string`: its bytes in order. -/
abbrev CppString := List Byte

/-- The bytes of a string literal of the source file (UTF-8). -/
def lit (s : String) : CppString :=
  (s.toList.flatMap String.utf8EncodeChar).map (fun b => b.val)

/-- The separator `" - "` used by `FlyweightFactory::hash`. -/
def separator : CppString := lit " - "

/-- The byte `'-'`. -/
def dash : Byte := 45

/-- Wrap-around of a mathematical integer into the range of a 32-bit `int`. -/
def wrapInt32 (x : Int) : Int := (x + 2147483648) % 4294967296 - 2147483648

/-- The value of a plain `char` after integral promotion to `int`.  Whether
plain `char` is signed is implementation-defined, hence the parameter. -/
def charToInt (charIsSigned : Bool) (c : Byte) : Int :=
  if charIsSigned && decide (128 ≤ c.val) then (c.val : Int) - 256 else (c.val : Int)

/-- The function `std::to_string(int)`: decimal digits, with a leading `'-'` for negatives. -/
def to_string (i : Int) : CppString :=
  if i < 0 then dash :: lit (Nat.repr i.natAbs) else lit (Nat.repr i.natAbs)

/-! ## Data types -/

/-- The C++ `enum Engine`. -/
inductive Engine where
  | electric
  | combustion
  deriving DecidableEq, Repr

/-- The C++ `struct SharedState`. -/
structure SharedState where
  brand : CppString
  model : CppString
  color : CppString
  deriving DecidableEq, Repr

/-- The C++ `struct UniqueState`. -/
structure UniqueState where
  owner : CppString
  plates : CppString
  tripComputer : CppString
  hasAutopilot : Bool
  engine : Engine
  buffs : List CppString
  deriving DecidableEq, Repr

/-- The constructor `UniqueState()`: the strings and the vector are empty,
`hasAutopilot` and `engine` have no initialiser and keep whatever value
the storage holds, passed here as `hasAutopilot0` and `engine0`. -/
def UniqueState.new (hasAutopilot0 : Bool) (engine0 : Engine) : UniqueState :=
  { owner := [], plates := [], tripComputer := [],
    hasAutopilot := hasAutopilot0, engine := engine0, buffs := [] }

/-- The C++ `class Flyweight`: it owns its own heap copy of a `SharedState`. -/
structure Flyweight where
  sharedState : SharedState
  deriving DecidableEq, Repr

/-- The constructor `Flyweight()`: a fresh `SharedState` with empty strings. -/
def Flyweight.new : Flyweight := ⟨⟨[], [], []⟩⟩

/-- The constructor `Flyweight(SharedState *)`: a copy of the pointed-to state. -/
def Flyweight.ofSharedState (sharedState : SharedState) : Flyweight := ⟨sharedState⟩

/-- The copy assignment `Flyweight::operator=`: copies brand, color and model
into the state owned by `this`. -/
def Flyweight.assign (this source : Flyweight) : Flyweight :=
  { sharedState :=
      { this.sharedState with
        brand := source.sharedState.brand
        color := source.sharedState.color
        model := source.sharedState.model } }

/-- The accessor `Flyweight::getSharedState`. -/
def Flyweight.getSharedState (this : Flyweight) : SharedState := this.sharedState

/-! ## The map `unordered_map<string, Flyweight>` -/

/-- Nodes of the map; a node is addressed by its position. -/
abbrev UnorderedMap := List (CppString × Flyweight)

namespace UnorderedMap

/-- The lookup `find(key)`: the node holding `key`, or `none` for `end()`. -/
def find : UnorderedMap → CppString → Option Nat
  | [], _ => none
  | (k, _) :: rest, key =>
    if k = key then some 0 else (find rest key).map (· + 1)

/-- The number of nodes, `size()`. -/
def size (m : UnorderedMap) : Nat := m.length

/-- The element access `operator[]`: the node holding `key`, inserting a
default-constructed `Flyweight` first when there is none. -/
def subscript (m : UnorderedMap) (key : CppString) : UnorderedMap × Nat :=
  match find m key with
  | some p => (m, p)
  | none => (m ++ [(key, Flyweight.new)], m.length)

/-- The checked access `at(key)`: the node holding `key`; `none` stands for
the `std::out_of_range` exception. -/
def at_ (m : UnorderedMap) (key : CppString) : Option Nat := find m key

/-- Overwrite through a reference to node `p`: `node = source`. -/
def assignAt : UnorderedMap → Nat → Flyweight → UnorderedMap
  | [], _, _ => []
  | (k, v) :: rest, 0, source => (k, v.assign source) :: rest
  | e :: rest, p + 1, source => e :: assignAt rest p source

/-- The statement `m[key] = source`. -/
def subscriptAssign (m : UnorderedMap) (key : CppString) (source : Flyweight) : UnorderedMap :=
  assignAt (subscript m key).1 (subscript m key).2 source

/-- Dereference of a `Flyweight *` into the map. -/
def deref (m : UnorderedMap) (p : Nat) : Option Flyweight := (m.get? p).map Prod.snd

/-- The key stored in node `p`. -/
def keyAt (m : UnorderedMap) (p : Nat) : Option CppString := (m.get? p).map Prod.fst

end UnorderedMap

/-! ## The factory -/

/-- The two lines `getFlyweight` can print. -/
inductive Event where
  /-- The line "FlyweightFactory: Can't find a flyweight, creating new one". -/
  | create
  /-- The line "FlyweightFactory: Reusing existing flyweight". -/
  | reuse
  deriving DecidableEq, Repr

/-- The C++ `class FlyweightFactory`. -/
structure FlyweightFactory where
  flyweights : UnorderedMap
  deriving DecidableEq, Repr

namespace FlyweightFactory

/-- The private method `FlyweightFactory::hash`. -/
def hash (ss : SharedState) : CppString :=
  ss.brand ++ separator ++ ss.model ++ separator ++ ss.color

/-- The constructor `FlyweightFactory(vector<SharedState> &)`. -/
def new (sharedStates : List SharedState) : FlyweightFactory :=
  ⟨sharedStates.foldl
    (fun flyweights sharedState =>
      UnorderedMap.subscriptAssign flyweights (hash sharedState)
        (Flyweight.ofSharedState sharedState))
    []⟩

/-- What a returning call of `getFlyweight` leaves behind. -/
structure Result where
  factory : FlyweightFactory
  ptr : Nat
  out : List Event
  deriving DecidableEq, Repr

/-- The method `FlyweightFactory::getFlyweight`; `none` when `at` throws. -/
def getFlyweight (this : FlyweightFactory) (sharedState : SharedState) : Option Result :=
  let key := hash sharedState
  let step : UnorderedMap × List Event :=
    if UnorderedMap.find this.flyweights key = none then
      (UnorderedMap.subscriptAssign this.flyweights key (Flyweight.ofSharedState sharedState),
        [Event.create])
    else
      (this.flyweights, [Event.reuse])
  match UnorderedMap.at_ step.1 key with
  | some p => some ⟨⟨step.1⟩, p, step.2⟩
  | none => none

/-- The count printed by `listFlyweights`. -/
def size (this : FlyweightFactory) : Nat := UnorderedMap.size this.flyweights

/-- The shared state a `Flyweight *` into this factory points to. -/
def sharedStateAt (this : FlyweightFactory) (p : Nat) : Option SharedState :=
  (UnorderedMap.deref this.flyweights p).map Flyweight.getSharedState

end FlyweightFactory

/-! ## Cars and builders -/

/-- The C++ `class Car`. -/
structure Car where
  uniqueState : UniqueState
  flyweight : Nat
  deriving DecidableEq, Repr

/-- What a returning `Car` constructor or `build` leaves behind. -/
structure Built where
  factory : FlyweightFactory
  car : Car
  out : List Event
  deriving DecidableEq, Repr

/-- The constructor `Car(FlyweightFactory *, string, string, string)`.  The member
`uniqueState` is default-constructed, see `UniqueState.new`. -/
def Car.new (flyweightFactory : FlyweightFactory) (brand model color : CppString)
    (hasAutopilot0 : Bool) (engine0 : Engine) : Option Built :=
  let sharedState : SharedState := ⟨brand, model, color⟩
  match flyweightFactory.getFlyweight sharedState with
  | some r => some ⟨r.factory, ⟨UniqueState.new hasAutopilot0 engine0, r.ptr⟩, r.out⟩
  | none => none

/-- The text written by `operator<<` for a `Car`. -/
def Car.render (flyweightFactory : FlyweightFactory) (source : Car) : Option CppString :=
  match flyweightFactory.sharedStateAt source.flyweight with
  | some ss =>
    some (source.uniqueState.owner ++ lit " " ++ source.uniqueState.plates ++ lit " "
      ++ ss.brand ++ lit " " ++ ss.model)
  | none => none

/-- The data members of the C++ `class CarBuilder`, apart from the pointer to
the factory, which is passed to `build`. -/
structure CarBuilder where
  buffs : List CppString
  engine : Engine
  owner : CppString
  plates : CppString
  tripComputer : CppString
  hasAutopilot : Bool
  deriving DecidableEq, Repr

namespace CarBuilder

/-- The constructor `CarBuilder(FlyweightFactory *)`: `engine` and `hasAutopilot`
have no initialiser. -/
def new (engine0 : Engine) (hasAutopilot0 : Bool) : CarBuilder :=
  { buffs := [], engine := engine0, owner := [], plates := [], tripComputer := [],
    hasAutopilot := hasAutopilot0 }

/-- The method `CarBuilder::addBuff`. -/
def addBuff (this : CarBuilder) (buff : CppString) : CarBuilder :=
  { this with buffs := this.buffs ++ [buff] }

/-- The loop of `setOwner`: `int sum = 0; for (char c : owner) sum += c;`. -/
def plateSum (charIsSigned : Bool) (owner : CppString) : Int :=
  owner.foldl (fun sum character => wrapInt32 (sum + charToInt charIsSigned character)) 0

/-- The method `CarBuilder::setOwner`. -/
def setOwner (charIsSigned : Bool) (this : CarBuilder) (owner : CppString) : CarBuilder :=
  { this with owner := owner, plates := to_string (plateSum charIsSigned owner) }

/-- The method `CarBuilder::setTripComputer`. -/
def setTripComputer (this : CarBuilder) (tripComputer : CppString) : CarBuilder :=
  { this with tripComputer := tripComputer }

/-- The method `CarBuilder::toggleAutopilot`. -/
def toggleAutopilot (this : CarBuilder) : CarBuilder :=
  { this with hasAutopilot := !this.hasAutopilot }

/-- The method `CarBuilder::reset`. -/
def reset (this : CarBuilder) : CarBuilder :=
  { this with buffs := [], owner := [], plates := [], tripComputer := [], hasAutopilot := false }

/-- The common body of the two `build` overrides after the `Car` is constructed. -/
def fill (this : CarBuilder) (engine : Engine) (car : Car) : Car :=
  { car with
    uniqueState :=
      { car.uniqueState with
        engine := engine
        buffs := this.buffs
        hasAutopilot := this.hasAutopilot
        tripComputer := this.tripComputer
        plates := this.plates
        owner := this.owner } }

end CarBuilder

/-- The override `CombustionCarBuilder::build`. -/
def CombustionCarBuilder.build (this : CarBuilder) (flyweightFactory : FlyweightFactory)
    (hasAutopilot0 : Bool) (engine0 : Engine) : Option Built :=
  match Car.new flyweightFactory (lit "Toyota") (lit "Land Cruiser Prado") (lit "Red")
      hasAutopilot0 engine0 with
  | some b => some { b with car := this.fill Engine.combustion b.car }
  | none => none

/-- The override `ElectroCarBuilder::build`. -/
def ElectroCarBuilder.build (this : CarBuilder) (flyweightFactory : FlyweightFactory)
    (hasAutopilot0 : Bool) (engine0 : Engine) : Option Built :=
  match Car.new flyweightFactory (lit "Tesla") (lit "Model 3") (lit "Black")
      hasAutopilot0 engine0 with
  | some b => some { b with car := this.fill Engine.electric b.car }
  | none => none

/-! ## Drivers and reachable states -/

/-- A run of `getFlyweight` calls, one per candidate, in order: the final
factory, the pointers returned and everything printed. -/
def getFlyweights : FlyweightFactory → List SharedState →
    Option (FlyweightFactory × List Nat × List Event)
  | f, [] => some (f, [], [])
  | f, c :: cs =>
    match f.getFlyweight c with
    | none => none
    | some r =>
      match getFlyweights r.factory cs with
      | none => none
      | some (g, ps, out) => some (g, r.ptr :: ps, r.out ++ out)

/-- The factories a program can hold: built by the constructor from some
seed, then changed by `getFlyweight` only. -/
inductive Reachable : FlyweightFactory → Prop
  | init (seed : List SharedState) : Reachable (FlyweightFactory.new seed)
  | step {f : FlyweightFactory} {r : FlyweightFactory.Result} (c : SharedState) :
      Reachable f → f.getFlyweight c = some r → Reachable r.factory

/-- Every node's key is the `hash` of the state stored in that node. -/
def KeyConsistent (m : UnorderedMap) : Prop :=
  ∀ e ∈ m, e.1 = FlyweightFactory.hash e.2.sharedState

/-- Neither the brand nor the model contains the byte `'-'`. -/
def DashFreeHead (s : SharedState) : Prop := dash ∉ s.brand ∧ dash ∉ s.model

/-- No field contains the byte `'-'`. -/
def DashFree (s : SharedState) : Prop := dash ∉ s.brand ∧ dash ∉ s.model ∧ dash ∉ s.color

instance (s : SharedState) : Decidable (DashFreeHead s) := by
  unfold DashFreeHead; infer_instance

instance (s : SharedState) : Decidable (DashFree s) := by
  unfold DashFree; infer_instance

/-- The sum of the bytes of a string, each counted as a value `0..255`. -/
def byteSum (s : CppString) : Nat := (s.map (fun c => c.val)).sum

/-- A candidate whose brand contains the separator. -/
def collideA : SharedState := ⟨lit "a - b", lit "c", lit "d"⟩

/-- A candidate whose model contains the separator; it differs from `collideA`
in brand and in model. -/
def collideB : SharedState := ⟨lit "a", lit "b - c", lit "d"⟩

/-- The factory that holds `collideA` and nothing else. -/
def collideFactory : FlyweightFactory := ⟨[(lit "a - b - c - d", ⟨collideA⟩)]⟩

/-- The candidate of `CombustionCarBuilder::build`. -/
def toyota : SharedState := ⟨lit "Toyota", lit "Land Cruiser Prado", lit "Red"⟩

/-- The candidate of `ElectroCarBuilder::build`. -/
def tesla : SharedState := ⟨lit "Tesla", lit "Model 3", lit "Black"⟩

/-- A freshly constructed builder, with `engine` and `hasAutopilot` holding
one of the values they may hold. -/
def freshBuilder : CarBuilder := CarBuilder.new Engine.combustion false

/-- An owner name of two bytes, the UTF-8 encoding of U+00E9. -/
def accentedOwner : CppString := [195, 169]

/-- An owner name of 16909321 bytes, each `0x7f`. -/
def longOwner : CppString := List.replicate 16909321 127

/-- The keys held by the map, in node order. -/
def UnorderedMap.keys (m : UnorderedMap) : List CppString := m.map Prod.fst

/-- The state stored under `key`, if the map holds `key`. -/
def FlyweightFactory.lookup (this : FlyweightFactory) (key : CppString) : Option SharedState :=
  (UnorderedMap.find this.flyweights key).bind this.sharedStateAt

/-! ## The function `main` -/

/-- What the C++ standard leaves open in a run of `main`: whether plain `char` is signed, and
the values found in the members that no constructor initialises, those of the two builders
and those of the `UniqueState` of each car (cars are numbered in the order of construction). -/
structure Environment where
  charIsSigned : Bool
  combustionEngine0 : Engine
  combustionAutopilot0 : Bool
  electroEngine0 : Engine
  electroAutopilot0 : Bool
  carAutopilot0 : Nat → Bool
  carEngine0 : Nat → Engine

/-- The state that a `for` loop of `main` works on, with what it has built and printed. -/
structure LoopState where
  builder : CarBuilder
  factory : FlyweightFactory
  cars : List Car
  lines : List CppString
  out : List Event

/-- The string `"Buff " + to_string(i)` of the loops of `main`. -/
def buffName (i : Nat) : CppString := lit "Buff " ++ to_string (i : Int)

/-- The string `"Person " + to_string(i)` of the loops of `main`. -/
def personName (i : Nat) : CppString := lit "Person " ++ to_string (i : Int)

/-- The first four calls of the body of either `for` loop of `main`: `addBuff`,
`toggleAutopilot`, `setOwner`, `setTripComputer`. -/
def accumulate (tripComputer : CppString) (env : Environment) (builder : CarBuilder)
    (i : Nat) : CarBuilder :=
  (CarBuilder.setOwner env.charIsSigned ((builder.addBuff (buffName i)).toggleAutopilot)
    (personName i)).setTripComputer tripComputer

/-- The body of either `for` loop of `main`, for the loop variable `i`: the four
accumulating calls, `build`, then the car is printed. -/
def loopBody (build : CarBuilder → FlyweightFactory → Bool → Engine → Option Built)
    (tripComputer : CppString) (env : Environment) (carNumber0 : Nat)
    (st : LoopState) (i : Nat) : Option LoopState :=
  let b4 := accumulate tripComputer env st.builder i
  match build b4 st.factory (env.carAutopilot0 (carNumber0 + i))
      (env.carEngine0 (carNumber0 + i)) with
  | none => none
  | some r =>
    match Car.render r.factory r.car with
    | none => none
    | some line =>
      some ⟨b4, r.factory, st.cars ++ [r.car], st.lines ++ [line], st.out ++ r.out⟩

/-- The loop `for (int i = 0; i < 6; i++)`, as a run of its body over the values of `i`. -/
def forLoop (body : LoopState → Nat → Option LoopState) : LoopState → List Nat → Option LoopState
  | st, [] => some st
  | st, i :: rest =>
    match body st i with
    | none => none
    | some st1 => forLoop body st1 rest

/-- What a run of `main` produces: the final factory, the cars in the order of
construction, the line printed for each car, the three counts printed by
`listFlyweights`, and the lines printed by `getFlyweight`. -/
structure MainResult where
  factory : FlyweightFactory
  cars : List Car
  lines : List CppString
  sizes : List Nat
  out : List Event

/-- The function `main`. -/
def main (env : Environment) : Option MainResult :=
  let flyweightFactory := FlyweightFactory.new []
  let combustionCarBuilder := CarBuilder.new env.combustionEngine0 env.combustionAutopilot0
  let electroCarBuilder := CarBuilder.new env.electroEngine0 env.electroAutopilot0
  match forLoop (loopBody CombustionCarBuilder.build (lit "CarPlay") env 0)
      ⟨combustionCarBuilder, flyweightFactory, [], [], []⟩ (List.range 6) with
  | none => none
  | some st1 =>
    let size1 := st1.factory.size
    match forLoop (loopBody ElectroCarBuilder.build (lit "Tesla") env 6)
        ⟨electroCarBuilder, st1.factory, st1.cars, st1.lines, st1.out⟩ (List.range 6) with
    | none => none
    | some st2 =>
      let size2 := st2.factory.size
      match Car.new st2.factory (lit "Toyota") (lit "Prius") (lit "White")
          (env.carAutopilot0 12) (env.carEngine0 12) with
      | none => none
      | some r =>
        match Car.render r.factory r.car with
        | none => none
        | some line =>
          some ⟨r.factory, st2.cars ++ [r.car], st2.lines ++ [line],
            [size1, size2, r.factory.size], st2.out ++ r.out⟩

/-- The relation of a `build` override to `getFlyweight`: it returns whenever
`getFlyweight` returns for `triple`, with that node, the engine `engine` and the
accumulated members of the builder. -/
def BuildsFrom (build : CarBuilder → FlyweightFactory → Bool → Engine → Option Built)
    (triple : SharedState) (engine : Engine) : Prop :=
  ∀ (b : CarBuilder) (f : FlyweightFactory) (hasAutopilot0 : Bool) (engine0 : Engine)
    (g : FlyweightFactory.Result), f.getFlyweight triple = some g →
    build b f hasAutopilot0 engine0 =
      some ⟨g.factory,
        ⟨⟨b.owner, b.plates, b.tripComputer, b.hasAutopilot, engine, b.buffs⟩, g.ptr⟩, g.out⟩

/-- The candidate of the last `Car` constructed in `main`. -/
def prius : SharedState := ⟨lit "Toyota", lit "Prius", lit "White"⟩

/-- The factory after the first loop of `main`. -/
def factoryOne : FlyweightFactory := ⟨[(FlyweightFactory.hash toyota, ⟨toyota⟩)]⟩

/-- The factory after the second loop of `main`. -/
def factoryTwo : FlyweightFactory :=
  ⟨[(FlyweightFactory.hash toyota, ⟨toyota⟩), (FlyweightFactory.hash tesla, ⟨tesla⟩)]⟩

/-- The factory at the end of `main`. -/
def factoryThree : FlyweightFactory :=
  ⟨[(FlyweightFactory.hash toyota, ⟨toyota⟩), (FlyweightFactory.hash tesla, ⟨tesla⟩),
    (FlyweightFactory.hash prius, ⟨prius⟩)]⟩

/-- An environment: signed `char`, and `false`, `electric` in all uninitialised members. -/
def plainEnvironment : Environment :=
  ⟨true, Engine.electric, false, Engine.electric, false, fun _ => false, fun _ => Engine.electric⟩

/-- An environment in which the storage of every uninitialised `bool` holds `true`. -/
def dirtyEnvironment : Environment :=
  ⟨true, Engine.electric, true, Engine.electric, true, fun _ => true, fun _ => Engine.electric⟩

/-! ## The map: basic facts -/

namespace UnorderedMap

theorem find_lt {m : UnorderedMap} {key : CppString} {p : Nat}
    (h : find m key = some p) : p < m.length := by
  induction m generalizing p with
  | nil => simp [find] at h
  | cons e rest ih =>
    obtain ⟨k, v⟩ := e
    by_cases hk : k = key
    · simp [find, hk] at h
      subst h
      simp
    · simp only [find, hk, if_false, Option.map_eq_some'] at h
      obtain ⟨q, hq, rfl⟩ := h
      have := ih hq
      simp
      omega

theorem find_keyAt {m : UnorderedMap} {key : CppString} {p : Nat}
    (h : find m key = some p) : keyAt m p = some key := by
  induction m generalizing p with
  | nil => simp [find] at h
  | cons e rest ih =>
    obtain ⟨k, v⟩ := e
    by_cases hk : k = key
    · simp [find, hk] at h
      subst h
      simp [keyAt, hk]
    · simp only [find, hk, if_false, Option.map_eq_some'] at h
      obtain ⟨q, hq, rfl⟩ := h
      have := ih hq
      simpa [keyAt] using this

theorem find_append_of_some {m : UnorderedMap} {key : CppString} {p : Nat}
    (l : UnorderedMap) (h : find m key = some p) : find (m ++ l) key = some p := by
  induction m generalizing p with
  | nil => simp [find] at h
  | cons e rest ih =>
    obtain ⟨k, v⟩ := e
    by_cases hk : k = key
    · simpa [find, hk] using h
    · simp only [find, hk, if_false, Option.map_eq_some'] at h
      obtain ⟨q, hq, rfl⟩ := h
      simp [find, hk, ih hq]

theorem find_append_of_none {m : UnorderedMap} {key : CppString}
    (l : UnorderedMap) (h : find m key = none) :
    find (m ++ l) key = (find l key).map (· + m.length) := by
  induction m with
  | nil => simp
  | cons e rest ih =>
    obtain ⟨k, v⟩ := e
    by_cases hk : k = key
    · simp [find, hk] at h
    · simp only [find, hk, if_false, Option.map_eq_none'] at h
      have e : find ((k, v) :: rest ++ l) key = (find (rest ++ l) key).map (· + 1) := by
        simp [find, hk]
      rw [e, ih h]
      cases find l key with
      | none => rfl
      | some q => simp [Nat.add_assoc]

theorem find_append_self {m : UnorderedMap} {key : CppString} (v : Flyweight)
    (h : find m key = none) : find (m ++ [(key, v)]) key = some m.length := by
  rw [find_append_of_none _ h]
  simp [find]

theorem find_append_other {m : UnorderedMap} {key k : CppString} (v : Flyweight)
    (hk : k ≠ key) (h : find m key = none) : find (m ++ [(k, v)]) key = none := by
  rw [find_append_of_none _ h]
  simp [find, hk]

theorem find_assignAt (m : UnorderedMap) (p : Nat) (source : Flyweight) (key : CppString) :
    find (assignAt m p source) key = find m key := by
  induction m generalizing p with
  | nil => simp [assignAt]
  | cons e rest ih =>
    obtain ⟨k, v⟩ := e
    cases p with
    | zero => simp [assignAt, find]
    | succ q => simp [assignAt, find, ih]

theorem length_assignAt (m : UnorderedMap) (p : Nat) (source : Flyweight) :
    (assignAt m p source).length = m.length := by
  induction m generalizing p with
  | nil => simp [assignAt]
  | cons e rest ih =>
    obtain ⟨k, v⟩ := e
    cases p with
    | zero => simp [assignAt]
    | succ q => simp [assignAt, ih]

theorem assign_eq (this source : Flyweight) : this.assign source = source := by
  cases source with
  | mk s => cases s; rfl

theorem assignAt_append_length (m : UnorderedMap) (key : CppString) (v source : Flyweight) :
    assignAt (m ++ [(key, v)]) m.length source = m ++ [(key, source)] := by
  induction m with
  | nil => simp [assignAt, assign_eq]
  | cons e rest ih => simp [assignAt, ih]

theorem deref_append_left {m : UnorderedMap} {p : Nat} (l : UnorderedMap)
    (h : p < m.length) : deref (m ++ l) p = deref m p := by
  simp [deref, List.getElem?_append_left h]

theorem deref_append_length (m : UnorderedMap) (key : CppString) (v : Flyweight) :
    deref (m ++ [(key, v)]) m.length = some v := by
  simp [deref]

theorem mem_assignAt {m : UnorderedMap} {p : Nat} {source : Flyweight}
    {e : CppString × Flyweight} (h : e ∈ assignAt m p source) :
    e ∈ m ∨ (keyAt m p = some e.1 ∧ e.2 = source) := by
  induction m generalizing p with
  | nil => simp [assignAt] at h
  | cons x rest ih =>
    obtain ⟨k, v⟩ := x
    cases p with
    | zero =>
      simp only [assignAt, List.mem_cons] at h
      rcases h with h | h
      · right
        subst h
        simp [keyAt, assign_eq]
      · left
        simp [h]
    | succ q =>
      simp only [assignAt, List.mem_cons] at h
      rcases h with h | h
      · left
        simp [h]
      · rcases ih h with h1 | h1
        · left
          simp [h1]
        · right
          simpa [keyAt] using h1

end UnorderedMap

/-! ## The key function -/

namespace FlyweightFactory

theorem separator_eq : separator = [32, dash, 32] := by decide

theorem hash_eq (s : SharedState) :
    hash s = (s.brand ++ [32]) ++ dash :: (([32] ++ s.model ++ [32]) ++ dash :: (32 :: s.color)) := by
  simp [hash, separator_eq]

theorem append_dash_inj {l1 l2 r1 r2 : CppString} (h1 : dash ∉ l1) (h2 : dash ∉ l2)
    (h : l1 ++ dash :: r1 = l2 ++ dash :: r2) : l1 = l2 ∧ r1 = r2 := by
  induction l1 generalizing l2 with
  | nil =>
    cases l2 with
    | nil => simpa using h
    | cons b u =>
      simp only [List.nil_append, List.cons_append, List.cons.injEq] at h
      exact absurd (by simp [h.1]) h2
  | cons a t ih =>
    cases l2 with
    | nil =>
      simp only [List.nil_append, List.cons_append, List.cons.injEq] at h
      exact absurd (by simp [h.1]) h1
    | cons b u =>
      simp only [List.cons_append, List.cons.injEq] at h
      have ht : dash ∉ t := fun hm => h1 (List.mem_cons_of_mem _ hm)
      have hu : dash ∉ u := fun hm => h2 (List.mem_cons_of_mem _ hm)
      obtain ⟨e1, e2⟩ := ih ht hu h.2
      exact ⟨by rw [h.1, e1], e2⟩

theorem hash_injective_of_dashFreeHead {a b : SharedState}
    (ha : DashFreeHead a) (hb : DashFreeHead b) (h : hash a = hash b) : a = b := by
  rw [hash_eq, hash_eq] at h
  have n32 : dash ≠ (32 : Byte) := by decide
  have m1 : ∀ l : CppString, dash ∉ l → dash ∉ l ++ [32] := by
    intro l hl hm
    rcases List.mem_append.1 hm with hm | hm
    · exact hl hm
    · exact n32 (List.mem_singleton.1 hm)
  have m2 : ∀ l : CppString, dash ∉ l → dash ∉ [32] ++ l ++ [32] := by
    intro l hl hm
    rcases List.mem_append.1 hm with hm | hm
    · rcases List.mem_append.1 hm with hm | hm
      · exact n32 (List.mem_singleton.1 hm)
      · exact hl hm
    · exact n32 (List.mem_singleton.1 hm)
  obtain ⟨e1, e2⟩ := append_dash_inj (m1 _ ha.1) (m1 _ hb.1) h
  obtain ⟨e3, e4⟩ := append_dash_inj (m2 _ ha.2) (m2 _ hb.2) e2
  have hbrand : a.brand = b.brand := List.append_cancel_right e1
  have hmodel : a.model = b.model := by
    have := List.append_cancel_right e3
    simpa using this
  have hcolor : a.color = b.color := by simpa using e4
  cases a
  cases b
  simp_all

theorem count_dash_hash (s : SharedState) :
    (hash s).count dash = s.brand.count dash + s.model.count dash + s.color.count dash + 2 := by
  have n32 : ((32 : Byte) == dash) = false := by decide
  simp [hash_eq, List.count_append, List.count_cons, n32]
  omega

theorem dashFree_of_hash_eq {a b : SharedState} (ha : DashFree a) (h : hash b = hash a) :
    DashFree b := by
  have hc := congrArg (List.count dash) h
  rw [count_dash_hash, count_dash_hash] at hc
  have z1 := List.count_eq_zero.2 ha.1
  have z2 := List.count_eq_zero.2 ha.2.1
  have z3 := List.count_eq_zero.2 ha.2.2
  refine ⟨List.count_eq_zero.1 ?_, List.count_eq_zero.1 ?_, List.count_eq_zero.1 ?_⟩ <;> omega

theorem eq_of_hash_eq_of_dashFree {a b : SharedState} (ha : DashFree a) (h : hash b = hash a) :
    b = a := by
  have hb := dashFree_of_hash_eq ha h
  exact hash_injective_of_dashFreeHead ⟨hb.1, hb.2.1⟩ ⟨ha.1, ha.2.1⟩ h

/-! ## `getFlyweight`: the two branches -/

theorem getFlyweight_of_find_some {f : FlyweightFactory} {c : SharedState} {p : Nat}
    (h : UnorderedMap.find f.flyweights (hash c) = some p) :
    f.getFlyweight c = some ⟨f, p, [Event.reuse]⟩ := by
  simp [getFlyweight, h, UnorderedMap.at_]

theorem subscriptAssign_of_find_none {m : UnorderedMap} {key : CppString} (source : Flyweight)
    (h : UnorderedMap.find m key = none) :
    UnorderedMap.subscriptAssign m key source = m ++ [(key, source)] := by
  simp [UnorderedMap.subscriptAssign, UnorderedMap.subscript, h,
    UnorderedMap.assignAt_append_length]

theorem getFlyweight_of_find_none {f : FlyweightFactory} {c : SharedState}
    (h : UnorderedMap.find f.flyweights (hash c) = none) :
    f.getFlyweight c =
      some ⟨⟨f.flyweights ++ [(hash c, ⟨c⟩)]⟩, f.flyweights.length, [Event.create]⟩ := by
  simp [getFlyweight, h, subscriptAssign_of_find_none, UnorderedMap.at_,
    UnorderedMap.find_append_self, Flyweight.ofSharedState]

theorem getFlyweight_isSome (f : FlyweightFactory) (c : SharedState) :
    ∃ r, f.getFlyweight c = some r := by
  cases h : UnorderedMap.find f.flyweights (hash c) with
  | none => exact ⟨_, getFlyweight_of_find_none h⟩
  | some p => exact ⟨_, getFlyweight_of_find_some h⟩

/-! ## Key consistency -/

theorem keyConsistent_subscriptAssign {m : UnorderedMap} (s : SharedState)
    (hm : KeyConsistent m) :
    KeyConsistent (UnorderedMap.subscriptAssign m (hash s) (Flyweight.ofSharedState s)) := by
  cases h : UnorderedMap.find m (hash s) with
  | none =>
    rw [subscriptAssign_of_find_none _ h]
    intro e he
    rcases List.mem_append.1 he with he | he
    · exact hm e he
    · rw [List.mem_singleton.1 he]
      rfl
  | some p =>
    intro e he
    simp only [UnorderedMap.subscriptAssign, UnorderedMap.subscript, h] at he
    rcases UnorderedMap.mem_assignAt he with he | ⟨hk, hv⟩
    · exact hm e he
    · rw [UnorderedMap.find_keyAt h] at hk
      rw [hv, ← Option.some.inj hk]
      rfl

theorem keyConsistent_foldl (seed : List SharedState) (m : UnorderedMap) (hm : KeyConsistent m) :
    KeyConsistent (seed.foldl
      (fun flyweights sharedState =>
        UnorderedMap.subscriptAssign flyweights (hash sharedState)
          (Flyweight.ofSharedState sharedState)) m) := by
  induction seed generalizing m with
  | nil => simpa using hm
  | cons s rest ih =>
    simp only [List.foldl_cons]
    exact ih _ (keyConsistent_subscriptAssign s hm)

theorem keyConsistent_new (seed : List SharedState) : KeyConsistent (new seed).flyweights := by
  apply keyConsistent_foldl
  intro e he
  cases he

theorem keyConsistent_getFlyweight {f : FlyweightFactory} {c : SharedState} {r : Result}
    (hf : KeyConsistent f.flyweights) (h : f.getFlyweight c = some r) :
    KeyConsistent r.factory.flyweights := by
  cases hfind : UnorderedMap.find f.flyweights (hash c) with
  | none =>
    rw [getFlyweight_of_find_none hfind] at h
    cases h
    intro e he
    rcases List.mem_append.1 he with he | he
    · exact hf e he
    · rw [List.mem_singleton.1 he]
  | some p =>
    rw [getFlyweight_of_find_some hfind] at h
    cases h
    exact hf

theorem keyConsistent_of_reachable {f : FlyweightFactory} (h : Reachable f) :
    KeyConsistent f.flyweights := by
  induction h with
  | init seed => exact keyConsistent_new seed
  | step c _ hstep ih => exact keyConsistent_getFlyweight ih hstep

theorem sharedStateAt_of_find {f : FlyweightFactory} {key : CppString} {p : Nat}
    (hf : KeyConsistent f.flyweights) (h : UnorderedMap.find f.flyweights key = some p) :
    ∃ v, f.sharedStateAt p = some v ∧ hash v = key := by
  have hk := UnorderedMap.find_keyAt h
  simp only [UnorderedMap.keyAt, Option.map_eq_some'] at hk
  obtain ⟨e, he, hek⟩ := hk
  refine ⟨e.2.sharedState, ?_, ?_⟩
  · rw [List.get?_eq_getElem?] at he
    simp [sharedStateAt, UnorderedMap.deref, he, Flyweight.getSharedState]
  · have hmem : e ∈ f.flyweights := List.get?_mem he
    rw [← hf e hmem, hek]

theorem find_of_getFlyweight {f : FlyweightFactory} {c : SharedState} {r : Result}
    (h : f.getFlyweight c = some r) :
    UnorderedMap.find r.factory.flyweights (hash c) = some r.ptr := by
  cases hfind : UnorderedMap.find f.flyweights (hash c) with
  | none =>
    rw [getFlyweight_of_find_none hfind] at h
    cases h
    exact UnorderedMap.find_append_self _ hfind
  | some p =>
    rw [getFlyweight_of_find_some hfind] at h
    cases h
    exact hfind

theorem sharedStateAt_lt {f : FlyweightFactory} {p : Nat} (h : p < f.flyweights.length) :
    ∃ v, f.sharedStateAt p = some v := by
  simp [sharedStateAt, UnorderedMap.deref, List.getElem?_eq_getElem h]

theorem getFlyweight_preserves {f : FlyweightFactory} {c : SharedState} {r : Result}
    {k : CppString} {p : Nat} (h : f.getFlyweight c = some r)
    (hk : UnorderedMap.find f.flyweights k = some p) :
    UnorderedMap.find r.factory.flyweights k = some p ∧
      r.factory.sharedStateAt p = f.sharedStateAt p := by
  cases hfind : UnorderedMap.find f.flyweights (hash c) with
  | none =>
    rw [getFlyweight_of_find_none hfind] at h
    cases h
    refine ⟨UnorderedMap.find_append_of_some _ hk, ?_⟩
    simp only [sharedStateAt]
    rw [UnorderedMap.deref_append_left _ (UnorderedMap.find_lt hk)]
  | some q =>
    rw [getFlyweight_of_find_some hfind] at h
    cases h
    exact ⟨hk, rfl⟩

theorem getFlyweights_isSome (f : FlyweightFactory) (cs : List SharedState) :
    ∃ g ps out, getFlyweights f cs = some (g, ps, out) := by
  induction cs generalizing f with
  | nil => exact ⟨f, [], [], rfl⟩
  | cons c rest ih =>
    obtain ⟨r, hr⟩ := getFlyweight_isSome f c
    obtain ⟨g, ps, out, hg⟩ := ih r.factory
    exact ⟨g, r.ptr :: ps, r.out ++ out, by simp [getFlyweights, hr, hg]⟩

theorem getFlyweights_preserves {f g : FlyweightFactory} {cs : List SharedState}
    {ps : List Nat} {out : List Event} {k : CppString} {p : Nat}
    (h : getFlyweights f cs = some (g, ps, out))
    (hk : UnorderedMap.find f.flyweights k = some p) :
    UnorderedMap.find g.flyweights k = some p ∧ g.sharedStateAt p = f.sharedStateAt p := by
  induction cs generalizing f ps out with
  | nil =>
    simp only [getFlyweights, Option.some.injEq, Prod.mk.injEq] at h
    rw [← h.1]
    exact ⟨hk, rfl⟩
  | cons c rest ih =>
    obtain ⟨r, hr⟩ := getFlyweight_isSome f c
    obtain ⟨g1, ps1, out1, hg⟩ := getFlyweights_isSome r.factory rest
    simp only [getFlyweights, hr, hg, Option.some.injEq, Prod.mk.injEq] at h
    obtain ⟨h1, h2⟩ := getFlyweight_preserves hr hk
    rw [h.1] at hg
    obtain ⟨h3, h4⟩ := ih hg h1
    exact ⟨h3, h4.trans h2⟩

theorem getFlyweights_replicate_of_find {f : FlyweightFactory} {v : SharedState} {p : Nat}
    (h : UnorderedMap.find f.flyweights (hash v) = some p) (n : Nat) :
    getFlyweights f (List.replicate n v) =
      some (f, List.replicate n p, List.replicate n Event.reuse) := by
  induction n with
  | zero => rfl
  | succ n ih =>
    simp [List.replicate_succ, getFlyweights, getFlyweight_of_find_some h, ih]

/-! ## The claims on the cache -/

/-- C1 (deduplication).  For every factory and every two candidates `A`, `B` with the same
brand, model and color, `getFlyweight A` followed by `getFlyweight B` both return, and
return the same node, which is the node of the map holding their key; the second call
leaves the size (indeed the whole factory) as the first call left it. -/
theorem getFlyweight_deduplicates (f : FlyweightFactory) (A B : SharedState)
    (hbrand : A.brand = B.brand) (hmodel : A.model = B.model) (hcolor : A.color = B.color) :
    ∃ r1 r2, f.getFlyweight A = some r1 ∧ r1.factory.getFlyweight B = some r2 ∧
      r2.ptr = r1.ptr ∧
      UnorderedMap.find r2.factory.flyweights (hash A) = some r1.ptr ∧
      r2.factory.size = r1.factory.size ∧ r2.factory = r1.factory := by
  have hAB : A = B := by
    cases A
    cases B
    simp_all
  subst hAB
  obtain ⟨r1, h1⟩ := getFlyweight_isSome f A
  have hfind := find_of_getFlyweight h1
  exact ⟨r1, ⟨r1.factory, r1.ptr, [Event.reuse]⟩, h1, getFlyweight_of_find_some hfind,
    rfl, hfind, rfl, rfl⟩

/-- Witness of C1: the empty factory and the candidate `toyota`, given twice. -/
theorem getFlyweight_deduplicates_witness :
    toyota.brand = (⟨lit "Toyota", lit "Land Cruiser Prado", lit "Red"⟩ : SharedState).brand ∧
    toyota.model = (⟨lit "Toyota", lit "Land Cruiser Prado", lit "Red"⟩ : SharedState).model ∧
    toyota.color = (⟨lit "Toyota", lit "Land Cruiser Prado", lit "Red"⟩ : SharedState).color ∧
    ∃ r1 r2, (new []).getFlyweight toyota = some r1 ∧
      r1.factory.getFlyweight ⟨lit "Toyota", lit "Land Cruiser Prado", lit "Red"⟩ = some r2 ∧
      r2.ptr = r1.ptr ∧
      UnorderedMap.find r2.factory.flyweights (hash toyota) = some r1.ptr ∧
      r2.factory.size = r1.factory.size ∧ r2.factory = r1.factory :=
  ⟨rfl, rfl, rfl, getFlyweight_deduplicates (new []) toyota
    ⟨lit "Toyota", lit "Land Cruiser Prado", lit "Red"⟩ rfl rfl rfl⟩

/-- C2 as stated fails: in the factory reached from the empty seed by `getFlyweight collideA`,
the call `getFlyweight collideB` returns the node that stores `collideA`, whose brand and
model are not those of the candidate `collideB`. -/
theorem getFlyweight_returns_other_value :
    Reachable collideFactory ∧
    collideFactory.getFlyweight collideB = some ⟨collideFactory, 0, [Event.reuse]⟩ ∧
    collideFactory.sharedStateAt 0 = some collideA ∧
    collideA.brand ≠ collideB.brand ∧ collideA.model ≠ collideB.model := by
  refine ⟨?_, by decide, by decide, by decide, by decide⟩
  have h : (new []).getFlyweight collideA = some ⟨collideFactory, 0, [Event.create]⟩ := by
    decide
  exact Reachable.step collideA (Reachable.init []) h

/-- C2 (amended).  In every reachable factory, `getFlyweight c` returns a node of the
resulting map; the state stored there has the same key as `c`, and it has the brand,
model and color of `c` whenever no field of `c` contains the byte `'-'`. -/
theorem getFlyweight_returns_same_key (f : FlyweightFactory) (c : SharedState)
    (hf : Reachable f) :
    ∃ r v, f.getFlyweight c = some r ∧ r.factory.sharedStateAt r.ptr = some v ∧
      hash v = hash c ∧
      (DashFree c → v.brand = c.brand ∧ v.model = c.model ∧ v.color = c.color) := by
  obtain ⟨r, hr⟩ := getFlyweight_isSome f c
  have hcons := keyConsistent_getFlyweight (keyConsistent_of_reachable hf) hr
  obtain ⟨v, hv, hkey⟩ := sharedStateAt_of_find hcons (find_of_getFlyweight hr)
  refine ⟨r, v, hr, hv, hkey, ?_⟩
  intro hc
  rw [eq_of_hash_eq_of_dashFree hc hkey]
  exact ⟨rfl, rfl, rfl⟩

/-- Witness of C2 (amended): the factory seeded with `tesla`, candidate `toyota`. -/
theorem getFlyweight_returns_same_key_witness :
    Reachable (new [tesla]) ∧
    ∃ r v, (new [tesla]).getFlyweight toyota = some r ∧
      r.factory.sharedStateAt r.ptr = some v ∧ hash v = hash toyota ∧
      (DashFree toyota → v.brand = toyota.brand ∧ v.model = toyota.model ∧
        v.color = toyota.color) :=
  ⟨Reachable.init [tesla],
    getFlyweight_returns_same_key (new [tesla]) toyota (Reachable.init [tesla])⟩

/-- C3 as stated fails: `collideA` and `collideB` have the same key although they differ
in brand and in model. -/
theorem hash_collision :
    hash collideA = hash collideB ∧ collideA.brand ≠ collideB.brand ∧
      collideA.model ≠ collideB.model := by
  decide

/-- C3 (amended).  States with the same brand, model and color have the same key; and for
states whose brand and model do not contain the byte `'-'`, the keys are equal if and
only if brand, model and color are equal. -/
theorem hash_eq_iff (a b : SharedState) :
    ((a.brand = b.brand ∧ a.model = b.model ∧ a.color = b.color) → hash a = hash b) ∧
    (DashFreeHead a → DashFreeHead b →
      (hash a = hash b ↔ a.brand = b.brand ∧ a.model = b.model ∧ a.color = b.color)) := by
  have fwd : (a.brand = b.brand ∧ a.model = b.model ∧ a.color = b.color) → hash a = hash b := by
    intro h
    simp [hash, h.1, h.2.1, h.2.2]
  refine ⟨fwd, fun ha hb => ⟨fun h => ?_, fwd⟩⟩
  rw [hash_injective_of_dashFreeHead ha hb h]
  exact ⟨rfl, rfl, rfl⟩

/-- Witness of C3 (amended): `toyota` and `tesla`. -/
theorem hash_eq_iff_witness :
    DashFreeHead toyota ∧ DashFreeHead tesla ∧
    (hash toyota = hash tesla ↔
      toyota.brand = tesla.brand ∧ toyota.model = tesla.model ∧ toyota.color = tesla.color) :=
  ⟨by decide, by decide, (hash_eq_iff toyota tesla).2 (by decide) (by decide)⟩

/-- C4 as stated fails: from the empty factory, `getFlyweight collideA` gives size 1 and the
following `getFlyweight collideB`, of a candidate with another brand and another model,
leaves the size at 1. -/
theorem size_after_colliding_candidates :
    (new []).getFlyweight collideA = some ⟨collideFactory, 0, [Event.create]⟩ ∧
    collideFactory.size = 1 ∧
    collideFactory.getFlyweight collideB = some ⟨collideFactory, 0, [Event.reuse]⟩ ∧
    collideA.brand ≠ collideB.brand ∧ collideA.model ≠ collideB.model := by
  decide

/-- C4 (amended).  From the empty factory, for all candidates `A` and `B` with different
keys, the size is 1 after `getFlyweight A` and 2 after the following `getFlyweight B`.  The
keys are different whenever `A` and `B` differ in a field and neither brand nor model of
either contains the byte `'-'`. -/
theorem size_after_two_candidates (A B : SharedState) :
    (hash A ≠ hash B →
      ∃ r1 r2, (new []).getFlyweight A = some r1 ∧ r1.factory.size = 1 ∧
        r1.factory.getFlyweight B = some r2 ∧ r2.factory.size = 2) ∧
    ((A.brand ≠ B.brand ∨ A.model ≠ B.model ∨ A.color ≠ B.color) →
      DashFreeHead A → DashFreeHead B → hash A ≠ hash B) := by
  constructor
  · intro hkey
    have h0 : UnorderedMap.find (new []).flyweights (hash A) = none := rfl
    have h1 := getFlyweight_of_find_none h0
    have h2 : UnorderedMap.find ((new []).flyweights ++ [(hash A, (⟨A⟩ : Flyweight))]) (hash B)
        = none := by
      simp [new, UnorderedMap.find, hkey]
    exact ⟨_, _, h1, rfl, getFlyweight_of_find_none h2, rfl⟩
  · intro hne hA hB hkey
    have hAB := hash_injective_of_dashFreeHead hA hB hkey
    rw [hAB] at hne
    simp at hne

/-- Witness of C4 (amended): `toyota`, then `tesla`. -/
theorem size_after_two_candidates_witness :
    (hash toyota ≠ hash tesla ∧
      ∃ r1 r2, (new []).getFlyweight toyota = some r1 ∧ r1.factory.size = 1 ∧
        r1.factory.getFlyweight tesla = some r2 ∧ r2.factory.size = 2) ∧
    ((toyota.brand ≠ tesla.brand ∨ toyota.model ≠ tesla.model ∨ toyota.color ≠ tesla.color) ∧
      DashFreeHead toyota ∧ DashFreeHead tesla ∧ hash toyota ≠ hash tesla) :=
  ⟨⟨by decide, (size_after_two_candidates toyota tesla).1 (by decide)⟩,
    ⟨by decide, by decide, by decide,
      (size_after_two_candidates toyota tesla).2 (by decide) (by decide) (by decide)⟩⟩

/-- C5 (lookup or insert).  Let `k = hash c`.  If the map holds `k` in node `p`, then
`getFlyweight c` prints exactly the one line "reuse", returns `p` and leaves the factory
as it was.  If the map does not hold `k`, then `getFlyweight c` prints exactly the one line
"create", the resulting map holds `k` in the returned node, that node stores a copy of
`c`, and the size has grown by exactly 1. -/
theorem getFlyweight_lookup_or_insert (f : FlyweightFactory) (c : SharedState) :
    (∀ p, UnorderedMap.find f.flyweights (hash c) = some p →
      f.getFlyweight c = some ⟨f, p, [Event.reuse]⟩) ∧
    (UnorderedMap.find f.flyweights (hash c) = none →
      ∃ r, f.getFlyweight c = some r ∧ r.out = [Event.create] ∧
        UnorderedMap.find r.factory.flyweights (hash c) = some r.ptr ∧
        r.factory.sharedStateAt r.ptr = some c ∧
        r.factory.size = f.size + 1) := by
  refine ⟨fun p h => getFlyweight_of_find_some h, fun h => ?_⟩
  refine ⟨_, getFlyweight_of_find_none h, rfl, UnorderedMap.find_append_self _ h, ?_, ?_⟩
  · simp [sharedStateAt, UnorderedMap.deref_append_length, Flyweight.getSharedState]
  · simp [size, UnorderedMap.size]

/-- Witness of C5: `collideFactory` holds the key of `collideA` in node 0, and the
empty factory does not hold it. -/
theorem getFlyweight_lookup_or_insert_witness :
    (UnorderedMap.find collideFactory.flyweights (hash collideA) = some 0 ∧
      collideFactory.getFlyweight collideA = some ⟨collideFactory, 0, [Event.reuse]⟩) ∧
    (UnorderedMap.find (new []).flyweights (hash collideA) = none ∧
      ∃ r, (new []).getFlyweight collideA = some r ∧ r.out = [Event.create] ∧
        UnorderedMap.find r.factory.flyweights (hash collideA) = some r.ptr ∧
        r.factory.sharedStateAt r.ptr = some collideA ∧
        r.factory.size = (new []).size + 1) :=
  ⟨⟨by decide, (getFlyweight_lookup_or_insert collideFactory collideA).1 0 (by decide)⟩,
    ⟨by decide, (getFlyweight_lookup_or_insert (new []) collideA).2 (by decide)⟩⟩

/-- C6 (idempotent re-insertion).  For every state `v` and every `N ≥ 1`, `N` calls of
`getFlyweight v` on the empty factory all return, leave a factory of size exactly 1 and
print "create" once, as the first line, and "reuse" exactly `N - 1` times. -/
theorem getFlyweights_replicate (v : SharedState) (N : Nat) (hN : 1 ≤ N) :
    ∃ g ps out, getFlyweights (new []) (List.replicate N v) = some (g, ps, out) ∧
      g.size = 1 ∧
      out = Event.create :: List.replicate (N - 1) Event.reuse ∧
      out.count Event.create = 1 ∧ out.count Event.reuse = N - 1 := by
  obtain ⟨n, rfl⟩ : ∃ n, N = n + 1 := ⟨N - 1, by omega⟩
  have h0 : UnorderedMap.find (new []).flyweights (hash v) = none := rfl
  have h1 := getFlyweight_of_find_none h0
  have h2 : UnorderedMap.find ((new []).flyweights ++ [(hash v, (⟨v⟩ : Flyweight))]) (hash v)
      = some 0 := UnorderedMap.find_append_self _ h0
  have h3 := getFlyweights_replicate_of_find h2 n
  have h4 : getFlyweights (new []) (List.replicate (n + 1) v) =
      some (⟨[(hash v, (⟨v⟩ : Flyweight))]⟩, 0 :: List.replicate n 0,
        Event.create :: List.replicate n Event.reuse) := by
    simp only [List.replicate_succ, getFlyweights, h1]
    rw [h3]
    rfl
  refine ⟨_, _, _, h4, rfl, rfl, ?_, ?_⟩
  · simp [List.count_cons, List.count_replicate]
  · simp [List.count_cons, List.count_replicate]

/-- Witness of C6: three calls with `toyota`. -/
theorem getFlyweights_replicate_witness :
    1 ≤ 3 ∧
    ∃ g ps out, getFlyweights (new []) (List.replicate 3 toyota) = some (g, ps, out) ∧
      g.size = 1 ∧
      out = Event.create :: List.replicate (3 - 1) Event.reuse ∧
      out.count Event.create = 1 ∧ out.count Event.reuse = 3 - 1 :=
  ⟨by decide, getFlyweights_replicate toyota 3 (by decide)⟩

/-- C7 (entries are never removed or altered).  If the map holds key `k` in node `p`, then
after `getFlyweight c`, and after any run of `getFlyweight` calls, the map still holds
`k` in the same node `p` and that node stores the same brand, model and color as before. -/
theorem getFlyweight_keeps_entries (f : FlyweightFactory) (k : CppString) (p : Nat)
    (hk : UnorderedMap.find f.flyweights k = some p) :
    ∃ v, f.sharedStateAt p = some v ∧
      (∀ c, ∃ r, f.getFlyweight c = some r ∧
        UnorderedMap.find r.factory.flyweights k = some p ∧
        r.factory.sharedStateAt p = some v) ∧
      (∀ cs, ∃ g ps out, getFlyweights f cs = some (g, ps, out) ∧
        UnorderedMap.find g.flyweights k = some p ∧
        g.sharedStateAt p = some v) := by
  obtain ⟨v, hv⟩ := sharedStateAt_lt (UnorderedMap.find_lt hk)
  refine ⟨v, hv, fun c => ?_, fun cs => ?_⟩
  · obtain ⟨r, hr⟩ := getFlyweight_isSome f c
    obtain ⟨h1, h2⟩ := getFlyweight_preserves hr hk
    exact ⟨r, hr, h1, h2.trans hv⟩
  · obtain ⟨g, ps, out, hg⟩ := getFlyweights_isSome f cs
    obtain ⟨h1, h2⟩ := getFlyweights_preserves hg hk
    exact ⟨g, ps, out, hg, h1, h2.trans hv⟩

/-- Witness of C7: the entry of `collideFactory`. -/
theorem getFlyweight_keeps_entries_witness :
    UnorderedMap.find collideFactory.flyweights (lit "a - b - c - d") = some 0 ∧
    ∃ v, collideFactory.sharedStateAt 0 = some v ∧
      (∀ c, ∃ r, collideFactory.getFlyweight c = some r ∧
        UnorderedMap.find r.factory.flyweights (lit "a - b - c - d") = some 0 ∧
        r.factory.sharedStateAt 0 = some v) ∧
      (∀ cs, ∃ g ps out, getFlyweights collideFactory cs = some (g, ps, out) ∧
        UnorderedMap.find g.flyweights (lit "a - b - c - d") = some 0 ∧
        g.sharedStateAt 0 = some v) :=
  ⟨by decide, getFlyweight_keeps_entries collideFactory (lit "a - b - c - d") 0 (by decide)⟩

end FlyweightFactory

/-! ## The builders -/

namespace CarBuilder

theorem wrapInt32_of_range {x : Int} (h1 : -2147483648 ≤ x) (h2 : x < 2147483648) :
    wrapInt32 x = x := by
  unfold wrapInt32
  omega

theorem wrapInt32_add_wrap (a b : Int) : wrapInt32 (wrapInt32 a + b) = wrapInt32 (a + b) := by
  unfold wrapInt32
  omega

theorem charToInt_of_small (charIsSigned : Bool) (c : Byte)
    (h : charIsSigned = true → c.val < 128) : charToInt charIsSigned c = (c.val : Int) := by
  unfold charToInt
  cases charIsSigned with
  | false => simp
  | true =>
    have := h rfl
    have h2 : ¬ (128 ≤ c.val) := by omega
    simp [h2]

theorem foldl_sum_of_small (charIsSigned : Bool) (s : CppString) (acc : Nat)
    (hchar : charIsSigned = true → ∀ c ∈ s, c.val < 128)
    (hsum : acc + byteSum s < 2147483648) :
    s.foldl (fun sum character => wrapInt32 (sum + charToInt charIsSigned character))
      (acc : Int) = ((acc + byteSum s : Nat) : Int) := by
  induction s generalizing acc with
  | nil => simp [byteSum]
  | cons c rest ih =>
    have hc : charToInt charIsSigned c = (c.val : Int) :=
      charToInt_of_small charIsSigned c (fun hs => hchar hs c (List.mem_cons_self _ _))
    have hb : byteSum (c :: rest) = c.val + byteSum rest := by simp [byteSum]
    rw [hb] at hsum
    have hw : wrapInt32 ((acc : Int) + (c.val : Int)) = ((acc + c.val : Nat) : Int) := by
      rw [wrapInt32_of_range] <;> push_cast <;> omega
    simp only [List.foldl_cons, hc, hw]
    rw [ih (acc + c.val) (fun hs x hx => hchar hs x (List.mem_cons_of_mem _ hx)) (by omega), hb,
      Nat.add_assoc]

theorem plateSum_of_small (charIsSigned : Bool) (s : CppString)
    (hchar : charIsSigned = true → ∀ c ∈ s, c.val < 128)
    (hsum : byteSum s < 2147483648) : plateSum charIsSigned s = (byteSum s : Int) := by
  have := foldl_sum_of_small charIsSigned s 0 hchar (by omega)
  simpa [plateSum] using this

theorem to_string_natCast (n : Nat) : to_string (n : Int) = lit (Nat.repr n) := by
  have h : ¬ ((n : Int) < 0) := by omega
  simp [to_string, h]

theorem foldl_replicate (charIsSigned : Bool) (c : Byte) (n : Nat) (a : Int) :
    (List.replicate n c).foldl
      (fun sum character => wrapInt32 (sum + charToInt charIsSigned character)) (wrapInt32 a)
      = wrapInt32 (a + n * charToInt charIsSigned c) := by
  induction n generalizing a with
  | zero => simp
  | succ n ih =>
    simp only [List.replicate_succ, List.foldl_cons, wrapInt32_add_wrap]
    rw [ih]
    congr 1
    push_cast
    ring

theorem plateSum_replicate (charIsSigned : Bool) (c : Byte) (n : Nat) :
    plateSum charIsSigned (List.replicate n c) = wrapInt32 (n * charToInt charIsSigned c) := by
  have h := foldl_replicate charIsSigned c n 0
  have h0 : wrapInt32 0 = 0 := by decide
  rw [h0] at h
  simpa [plateSum] using h

theorem byteSum_replicate (c : Byte) (n : Nat) :
    byteSum (List.replicate n c) = n * c.val := by
  induction n with
  | zero => simp [byteSum]
  | succ n ih =>
    have h : byteSum (List.replicate (n + 1) c) = c.val + byteSum (List.replicate n c) := by
      simp [byteSum, List.replicate_succ]
    rw [h, ih]
    ring

/-- C8 as stated fails.  Where plain `char` is signed, the two-byte owner `accentedOwner`
(bytes 195 and 169, sum 364) gets the plates "-148".  And whatever the signedness of
`char`, the owner `longOwner` (16909321 bytes `0x7f`, sum 2147483767) gets the plates
"-2147483529", the sum having left the range of `int`. -/
theorem setOwner_plates_not_byte_sum :
    (setOwner true freshBuilder accentedOwner).plates = lit "-148" ∧
    byteSum accentedOwner = 364 ∧
    (∀ charIsSigned, (setOwner charIsSigned freshBuilder longOwner).plates
      = lit "-2147483529") ∧
    byteSum longOwner = 2147483767 := by
  refine ⟨by decide, by decide, ?_, ?_⟩
  · intro charIsSigned
    have h : plateSum charIsSigned longOwner = -2147483529 := by
      rw [longOwner, plateSum_replicate]
      cases charIsSigned <;> decide
    simp only [setOwner, h]
    decide
  · rw [longOwner, byteSum_replicate]
    decide

/-- C8 (amended).  For every owner `s` whose byte sum is below `2^31` and, where plain
`char` is signed, whose bytes are all below 128: after `setOwner s` the owner is `s`, the
plates are the decimal string of the sum of the bytes of `s`, and no other member has
changed.  In particular the owner "Person 0" gets the plates "711", the decimal string of
80+101+114+115+111+110+32+48. -/
theorem setOwner_plates (charIsSigned : Bool) (b : CarBuilder) :
    (∀ s : CppString, (charIsSigned = true → ∀ c ∈ s, c.val < 128) →
      byteSum s < 2147483648 →
      setOwner charIsSigned b s = { b with owner := s, plates := lit (Nat.repr (byteSum s)) }) ∧
    (setOwner charIsSigned b (lit "Person 0")).plates = lit "711" ∧
    byteSum (lit "Person 0") = 80 + 101 + 114 + 115 + 111 + 110 + 32 + 48 := by
  refine ⟨fun s hchar hsum => ?_, ?_, by decide⟩
  · simp only [setOwner, plateSum_of_small charIsSigned s hchar hsum, to_string_natCast]
  · simp only [setOwner]
    cases charIsSigned <;> decide

/-- Witness of C8 (amended): the owner "Person 0" where `char` is signed. -/
theorem setOwner_plates_witness :
    (∀ c ∈ lit "Person 0", c.val < 128) ∧ byteSum (lit "Person 0") < 2147483648 ∧
    setOwner true freshBuilder (lit "Person 0") =
      { freshBuilder with
        owner := lit "Person 0", plates := lit (Nat.repr (byteSum (lit "Person 0"))) } :=
  have hlit : lit "Person 0" = [80, 101, 114, 115, 111, 110, 32, 48] := by decide
  have hsum : byteSum (lit "Person 0") = 711 := by decide
  have hchar : ∀ c ∈ lit "Person 0", c.val < 128 := by
    rw [hlit]
    intro c hc
    simp only [List.mem_cons, List.mem_singleton, List.not_mem_nil, or_false] at hc
    rcases hc with rfl | rfl | rfl | rfl | rfl | rfl | rfl | rfl <;> decide
  have hlt : byteSum (lit "Person 0") < 2147483648 := by
    rw [hsum]
    omega
  ⟨hchar, hlt, (setOwner_plates true freshBuilder).1 (lit "Person 0") (fun _ => hchar) hlt⟩

end CarBuilder

theorem toyota_dashFree : DashFree toyota := by decide

theorem build_combustion_eq (b : CarBuilder) (f : FlyweightFactory) (hasAutopilot0 : Bool)
    (engine0 : Engine) {g : FlyweightFactory.Result} (hg : f.getFlyweight toyota = some g) :
    CombustionCarBuilder.build b f hasAutopilot0 engine0 =
      some ⟨g.factory,
        ⟨⟨b.owner, b.plates, b.tripComputer, b.hasAutopilot, Engine.combustion, b.buffs⟩, g.ptr⟩,
        g.out⟩ := by
  have hg2 : f.getFlyweight ⟨lit "Toyota", lit "Land Cruiser Prado", lit "Red"⟩ = some g := hg
  simp [CombustionCarBuilder.build, Car.new, hg2, CarBuilder.fill, UniqueState.new]

theorem build_electro_eq (b : CarBuilder) (f : FlyweightFactory) (hasAutopilot0 : Bool)
    (engine0 : Engine) {g : FlyweightFactory.Result} (hg : f.getFlyweight tesla = some g) :
    ElectroCarBuilder.build b f hasAutopilot0 engine0 =
      some ⟨g.factory,
        ⟨⟨b.owner, b.plates, b.tripComputer, b.hasAutopilot, Engine.electric, b.buffs⟩, g.ptr⟩,
        g.out⟩ := by
  have hg2 : f.getFlyweight ⟨lit "Tesla", lit "Model 3", lit "Black"⟩ = some g := hg
  simp [ElectroCarBuilder.build, Car.new, hg2, CarBuilder.fill, UniqueState.new]

/-- C9 (reset).  For every builder state, `reset` leaves the buffs empty, the owner, the
plates and the trip computer empty and the autopilot flag false, and keeps the `engine`
member; it is a function of the builder alone, the factory is not in its reach.  A
combustion `build` right after `reset`, on any reachable factory, returns a car whose
flyweight stores the brand "Toyota" and whose owner, plates, trip computer and buffs are
empty and whose autopilot flag is false; the factory it leaves is the one a `build`
without the `reset` leaves. -/
theorem reset_then_build (b : CarBuilder) (f : FlyweightFactory) (hf : Reachable f)
    (hasAutopilot0 : Bool) (engine0 : Engine) :
    (b.reset.buffs = [] ∧ b.reset.owner = [] ∧ b.reset.plates = [] ∧
      b.reset.tripComputer = [] ∧ b.reset.hasAutopilot = false ∧ b.reset.engine = b.engine) ∧
    ∃ r ss, CombustionCarBuilder.build b.reset f hasAutopilot0 engine0 = some r ∧
      r.factory.sharedStateAt r.car.flyweight = some ss ∧ ss.brand = lit "Toyota" ∧
      r.car.uniqueState.owner = [] ∧ r.car.uniqueState.plates = [] ∧
      r.car.uniqueState.tripComputer = [] ∧ r.car.uniqueState.buffs = [] ∧
      r.car.uniqueState.hasAutopilot = false ∧
      r.car.uniqueState.engine = Engine.combustion ∧
      (CombustionCarBuilder.build b f hasAutopilot0 engine0).map (fun x => x.factory)
        = some r.factory := by
  refine ⟨⟨rfl, rfl, rfl, rfl, rfl, rfl⟩, ?_⟩
  obtain ⟨g, hg⟩ := FlyweightFactory.getFlyweight_isSome f toyota
  have hcons := FlyweightFactory.keyConsistent_getFlyweight
    (FlyweightFactory.keyConsistent_of_reachable hf) hg
  obtain ⟨v, hv, hkey⟩ :=
    FlyweightFactory.sharedStateAt_of_find hcons (FlyweightFactory.find_of_getFlyweight hg)
  have hvt : v = toyota := FlyweightFactory.eq_of_hash_eq_of_dashFree toyota_dashFree hkey
  refine ⟨_, v, build_combustion_eq b.reset f hasAutopilot0 engine0 hg, hv, ?_,
    rfl, rfl, rfl, rfl, rfl, rfl, ?_⟩
  · rw [hvt]
    rfl
  · rw [build_combustion_eq b f hasAutopilot0 engine0 hg]
    rfl

/-- Witness of C9: a builder that has accumulated state, on the empty factory. -/
theorem reset_then_build_witness :
    Reachable (FlyweightFactory.new []) ∧
    ∃ r ss, CombustionCarBuilder.build
        ((CarBuilder.setOwner true (freshBuilder.addBuff (lit "Buff 0")).toggleAutopilot
          (lit "Person 0")).setTripComputer (lit "CarPlay")).reset
        (FlyweightFactory.new []) true Engine.electric = some r ∧
      r.factory.sharedStateAt r.car.flyweight = some ss ∧ ss.brand = lit "Toyota" ∧
      r.car.uniqueState.owner = [] ∧ r.car.uniqueState.plates = [] ∧
      r.car.uniqueState.tripComputer = [] ∧ r.car.uniqueState.buffs = [] ∧
      r.car.uniqueState.hasAutopilot = false :=
  ⟨Reachable.init [],
    let ⟨r, ss, h1, h2, h3, h4, h5, h6, h7, h8, _⟩ :=
      (reset_then_build
        ((CarBuilder.setOwner true (freshBuilder.addBuff (lit "Buff 0")).toggleAutopilot
          (lit "Person 0")).setTripComputer (lit "CarPlay"))
        (FlyweightFactory.new []) (Reachable.init []) true Engine.electric).2
    ⟨r, ss, h1, h2, h3, h4, h5, h6, h7, h8⟩⟩

/-- C10 (build result).  For every builder state and every factory, the combustion `build`
returns; its car points to the node that `getFlyweight` returns for ("Toyota", "Land
Cruiser Prado", "Red"), has engine `combustion`, and has the owner, plates, trip computer,
autopilot flag and buffs of the builder; the factory and the output are those of that one
`getFlyweight` call.  The electro `build` does the same with ("Tesla", "Model 3", "Black")
and engine `electric`. -/
theorem build_result (b : CarBuilder) (f : FlyweightFactory) (hasAutopilot0 : Bool)
    (engine0 : Engine) :
    (∃ g, f.getFlyweight ⟨lit "Toyota", lit "Land Cruiser Prado", lit "Red"⟩ = some g ∧
      CombustionCarBuilder.build b f hasAutopilot0 engine0 =
        some ⟨g.factory,
          ⟨⟨b.owner, b.plates, b.tripComputer, b.hasAutopilot, Engine.combustion, b.buffs⟩,
            g.ptr⟩,
          g.out⟩) ∧
    (∃ g, f.getFlyweight ⟨lit "Tesla", lit "Model 3", lit "Black"⟩ = some g ∧
      ElectroCarBuilder.build b f hasAutopilot0 engine0 =
        some ⟨g.factory,
          ⟨⟨b.owner, b.plates, b.tripComputer, b.hasAutopilot, Engine.electric, b.buffs⟩,
            g.ptr⟩,
          g.out⟩) := by
  obtain ⟨g1, h1⟩ := FlyweightFactory.getFlyweight_isSome f toyota
  obtain ⟨g2, h2⟩ := FlyweightFactory.getFlyweight_isSome f tesla
  exact ⟨⟨g1, h1, build_combustion_eq b f hasAutopilot0 engine0 h1⟩,
    ⟨g2, h2, build_electro_eq b f hasAutopilot0 engine0 h2⟩⟩

/-! ## The run of `main` -/

theorem buildsFrom_combustion : BuildsFrom CombustionCarBuilder.build toyota Engine.combustion :=
  fun b f h0 e0 _ hg => build_combustion_eq b f h0 e0 hg

theorem buildsFrom_electro : BuildsFrom ElectroCarBuilder.build tesla Engine.electric :=
  fun b f h0 e0 _ hg => build_electro_eq b f h0 e0 hg

theorem accumulate_buffs (tc : CppString) (env : Environment) (b : CarBuilder) (i : Nat) :
    (accumulate tc env b i).buffs = b.buffs ++ [buffName i] := rfl

theorem loopBody_eq {build : CarBuilder → FlyweightFactory → Bool → Engine → Option Built}
    {triple : SharedState} {engine : Engine} (hb : BuildsFrom build triple engine)
    (tc : CppString) (env : Environment) (n : Nat) (st : LoopState) (i : Nat)
    {g : FlyweightFactory.Result} (hg : st.factory.getFlyweight triple = some g) :
    ∃ stn ss, loopBody build tc env n st i = some stn ∧
      g.factory.sharedStateAt g.ptr = some ss ∧
      stn.builder = accumulate tc env st.builder i ∧
      stn.factory = g.factory ∧
      stn.cars = st.cars ++ [⟨⟨(accumulate tc env st.builder i).owner,
        (accumulate tc env st.builder i).plates,
        (accumulate tc env st.builder i).tripComputer,
        (accumulate tc env st.builder i).hasAutopilot, engine,
        (accumulate tc env st.builder i).buffs⟩, g.ptr⟩] ∧
      stn.lines = st.lines ++ [(accumulate tc env st.builder i).owner ++ lit " "
        ++ (accumulate tc env st.builder i).plates ++ lit " " ++ ss.brand ++ lit " "
        ++ ss.model] ∧
      stn.out = st.out ++ g.out := by
  obtain ⟨ss, hss⟩ := FlyweightFactory.sharedStateAt_lt
    (UnorderedMap.find_lt (FlyweightFactory.find_of_getFlyweight hg))
  refine ⟨⟨accumulate tc env st.builder i, g.factory,
    st.cars ++ [⟨⟨(accumulate tc env st.builder i).owner,
      (accumulate tc env st.builder i).plates,
      (accumulate tc env st.builder i).tripComputer,
      (accumulate tc env st.builder i).hasAutopilot, engine,
      (accumulate tc env st.builder i).buffs⟩, g.ptr⟩],
    st.lines ++ [(accumulate tc env st.builder i).owner ++ lit " "
      ++ (accumulate tc env st.builder i).plates ++ lit " " ++ ss.brand ++ lit " "
      ++ ss.model],
    st.out ++ g.out⟩, ss, ?_, hss, rfl, rfl, rfl, rfl, rfl⟩
  simp only [loopBody, hb _ _ _ _ _ hg, Car.render, hss]

theorem inits_tail_map_cons {α β : Type} (F : List α → β) (i : α) (rest : List α) :
    ((i :: rest).inits.tail).map F = F [i] :: (rest.inits.tail).map (fun pre => F (i :: pre)) := by
  cases rest <;> simp [List.inits, Function.comp_def]

theorem forLoop_spec {build : CarBuilder → FlyweightFactory → Bool → Engine → Option Built}
    {triple : SharedState} {engine : Engine} (hb : BuildsFrom build triple engine)
    (tc : CppString) (env : Environment) (n : Nat) (is : List Nat) (st : LoopState) :
    ∃ st1 g ps out extra, forLoop (loopBody build tc env n) st is = some st1 ∧
      getFlyweights st.factory (List.replicate is.length triple) = some (g, ps, out) ∧
      st1.factory = g ∧
      st1.cars.map (fun c => c.uniqueState.buffs) =
        st.cars.map (fun c => c.uniqueState.buffs) ++
          (is.inits.tail).map (fun pre => st.builder.buffs ++ pre.map buffName) ∧
      st1.lines = st.lines ++ extra := by
  induction is generalizing st with
  | nil => exact ⟨st, st.factory, [], [], [], rfl, rfl, rfl, by simp [List.inits], by simp⟩
  | cons i rest ih =>
    obtain ⟨g, hg⟩ := FlyweightFactory.getFlyweight_isSome st.factory triple
    obtain ⟨stn, ss, hbody, _, hb1, hb2, hb3, hb4, _⟩ := loopBody_eq hb tc env n st i hg
    obtain ⟨st1, g1, ps, out, extra, h1, h2, h3, h4, h5⟩ := ih stn
    obtain ⟨line, hline⟩ : ∃ line, stn.lines = st.lines ++ [line] := ⟨_, hb4⟩
    refine ⟨st1, g1, g.ptr :: ps, g.out ++ out, line :: extra, ?_, ?_, h3, ?_, ?_⟩
    · simp only [forLoop, hbody]
      exact h1
    · rw [hb2] at h2
      simp only [List.length_cons, List.replicate_succ, getFlyweights, hg, h2]
    · rw [h4, inits_tail_map_cons, hb3, hb1]
      simp [accumulate_buffs]
    · rw [h5, hline]
      simp

theorem forLoop_cons {body : LoopState → Nat → Option LoopState} {st stn : LoopState} {i : Nat}
    (rest : List Nat) (h : body st i = some stn) :
    forLoop body st (i :: rest) = forLoop body stn rest := by
  simp only [forLoop, h]

theorem plates_person_zero (charIsSigned : Bool) :
    to_string (CarBuilder.plateSum charIsSigned (personName 0)) = lit "711" := by
  cases charIsSigned <;> decide

theorem main_spec (env : Environment) :
    ∃ r, main env = some r ∧ r.sizes = [1, 2, 3] ∧ r.factory = factoryThree ∧
      r.cars.map (fun c => c.uniqueState.buffs) =
        ((List.range 6).inits.tail).map (fun pre => pre.map buffName) ++
          ((List.range 6).inits.tail).map (fun pre => pre.map buffName) ++ [[]] ∧
      r.lines.head? = some (lit "Person 0 711 Toyota Land Cruiser Prado") := by
  -- the first loop
  obtain ⟨st1, g1, ps1, out1, extra1, hl1, hg1, hf1, hc1, _⟩ :=
    forLoop_spec buildsFrom_combustion (lit "CarPlay") env 0 (List.range 6)
      ⟨CarBuilder.new env.combustionEngine0 env.combustionAutopilot0, FlyweightFactory.new [],
        [], [], []⟩
  have e1 : (getFlyweights (FlyweightFactory.new []) (List.replicate (List.range 6).length
      toyota)).map (fun x => x.1) = some factoryOne := by decide
  have hF1 : st1.factory = factoryOne := by
    simp only [] at hg1
    rw [hg1] at e1
    rw [hf1]
    exact Option.some.inj e1
  -- its first pass
  have hget0 : (FlyweightFactory.new []).getFlyweight toyota
      = some ⟨factoryOne, 0, [Event.create]⟩ := by decide
  obtain ⟨stn, ss, hbody, hss, hn1, hn2, hn3, hn4, _⟩ :=
    loopBody_eq buildsFrom_combustion (lit "CarPlay") env 0
      ⟨CarBuilder.new env.combustionEngine0 env.combustionAutopilot0, FlyweightFactory.new [],
        [], [], []⟩ 0 hget0
  have hss2 : ss = toyota := by
    have : factoryOne.sharedStateAt 0 = some toyota := by decide
    simp only [] at hss
    rw [this] at hss
    exact (Option.some.inj hss).symm
  have hline : stn.lines = [lit "Person 0 711 Toyota Land Cruiser Prado"] := by
    rw [hn4, hss2]
    have ho : (accumulate (lit "CarPlay") env
        (CarBuilder.new env.combustionEngine0 env.combustionAutopilot0) 0).owner
        = personName 0 := rfl
    have hp : (accumulate (lit "CarPlay") env
        (CarBuilder.new env.combustionEngine0 env.combustionAutopilot0) 0).plates
        = lit "711" := plates_person_zero env.charIsSigned
    simp only [ho, hp, List.nil_append]
    decide
  obtain ⟨st1b, _, _, _, extra1b, hl1b, _, _, _, hlines1⟩ :=
    forLoop_spec buildsFrom_combustion (lit "CarPlay") env 0 [1, 2, 3, 4, 5] stn
  have hrange : List.range 6 = 0 :: [1, 2, 3, 4, 5] := by decide
  have hsame : st1b = st1 := by
    rw [hrange, forLoop_cons _ hbody, hl1b] at hl1
    exact Option.some.inj hl1
  rw [hsame, hline] at hlines1
  -- the second loop
  obtain ⟨st2, g2, ps2, out2, extra2, hl2, hg2, hf2, hc2, hlines2⟩ :=
    forLoop_spec buildsFrom_electro (lit "Tesla") env 6 (List.range 6)
      ⟨CarBuilder.new env.electroEngine0 env.electroAutopilot0, st1.factory, st1.cars,
        st1.lines, st1.out⟩
  have e2 : (getFlyweights factoryOne (List.replicate (List.range 6).length
      tesla)).map (fun x => x.1) = some factoryTwo := by decide
  have hF2 : st2.factory = factoryTwo := by
    simp only [hF1] at hg2
    rw [hg2] at e2
    rw [hf2]
    exact Option.some.inj e2
  -- the last car
  have hget3 : factoryTwo.getFlyweight ⟨lit "Toyota", lit "Prius", lit "White"⟩
      = some ⟨factoryThree, 2, [Event.create]⟩ := by decide
  have hnew : Car.new st2.factory (lit "Toyota") (lit "Prius") (lit "White")
      (env.carAutopilot0 12) (env.carEngine0 12)
      = some ⟨factoryThree, ⟨UniqueState.new (env.carAutopilot0 12) (env.carEngine0 12), 2⟩,
          [Event.create]⟩ := by
    simp only [Car.new, hF2, hget3]
  have hat3 : factoryThree.sharedStateAt 2 = some prius := by decide
  have hrender : Car.render factoryThree
      ⟨UniqueState.new (env.carAutopilot0 12) (env.carEngine0 12), 2⟩
      = some ((UniqueState.new (env.carAutopilot0 12) (env.carEngine0 12)).owner ++ lit " "
          ++ (UniqueState.new (env.carAutopilot0 12) (env.carEngine0 12)).plates ++ lit " "
          ++ prius.brand ++ lit " " ++ prius.model) := by
    simp only [Car.render, hat3]
  have hmain : main env = some ⟨factoryThree,
      st2.cars ++ [⟨UniqueState.new (env.carAutopilot0 12) (env.carEngine0 12), 2⟩],
      st2.lines ++ [(UniqueState.new (env.carAutopilot0 12) (env.carEngine0 12)).owner
        ++ lit " " ++ (UniqueState.new (env.carAutopilot0 12) (env.carEngine0 12)).plates
        ++ lit " " ++ prius.brand ++ lit " " ++ prius.model],
      [st1.factory.size, st2.factory.size, factoryThree.size],
      st2.out ++ [Event.create]⟩ := by
    unfold main
    simp only []
    rw [hl1]
    simp only []
    rw [hl2]
    simp only []
    rw [hnew]
    simp only []
    rw [hrender]
  refine ⟨_, hmain, ?_, ?_, ?_, ?_⟩
  · simp only [hF1, hF2]
    decide
  · rfl
  · simp only [List.map_append, hc2, hc1]
    simp [CarBuilder.new, UniqueState.new]
  · simp only [hlines2, hlines1]
    simp

theorem getFlyweights_reachable {f g : FlyweightFactory} {cs : List SharedState}
    {ps : List Nat} {out : List Event} (hf : Reachable f)
    (h : getFlyweights f cs = some (g, ps, out)) : Reachable g := by
  induction cs generalizing f ps out with
  | nil =>
    simp only [getFlyweights, Option.some.injEq, Prod.mk.injEq] at h
    rw [← h.1]
    exact hf
  | cons c rest ih =>
    obtain ⟨r, hr⟩ := FlyweightFactory.getFlyweight_isSome f c
    obtain ⟨g1, ps1, out1, hg⟩ := FlyweightFactory.getFlyweights_isSome r.factory rest
    simp only [getFlyweights, hr, hg, Option.some.injEq, Prod.mk.injEq] at h
    rw [h.1] at hg
    exact ih (Reachable.step c hf hr) hg

theorem foldl_wrap_eq (charIsSigned : Bool) (s : CppString) (a : Int) :
    s.foldl (fun sum character => wrapInt32 (sum + charToInt charIsSigned character))
      (wrapInt32 a) = wrapInt32 (a + (s.map (charToInt charIsSigned)).sum) := by
  induction s generalizing a with
  | nil => simp
  | cons c rest ih =>
    simp only [List.foldl_cons, CarBuilder.wrapInt32_add_wrap, List.map_cons, List.sum_cons]
    rw [ih, Int.add_assoc]

theorem plateSum_eq_wrap (charIsSigned : Bool) (s : CppString) :
    CarBuilder.plateSum charIsSigned s = wrapInt32 ((s.map (charToInt charIsSigned)).sum) := by
  have h := foldl_wrap_eq charIsSigned s 0
  have h0 : wrapInt32 0 = 0 := by decide
  rw [h0] at h
  simpa [CarBuilder.plateSum] using h

theorem car_new_eq (f : FlyweightFactory) (brand model color : CppString)
    (hasAutopilot0 : Bool) (engine0 : Engine) {g : FlyweightFactory.Result}
    (hg : f.getFlyweight ⟨brand, model, color⟩ = some g) :
    Car.new f brand model color hasAutopilot0 engine0 =
      some ⟨g.factory, ⟨⟨[], [], [], hasAutopilot0, engine0, []⟩, g.ptr⟩, g.out⟩ := by
  simp [Car.new, hg, UniqueState.new]

theorem toggle_iterate (b : CarBuilder) (k : Nat) :
    (CarBuilder.toggleAutopilot^[k] b) =
      { b with hasAutopilot := if k % 2 = 1 then !b.hasAutopilot else b.hasAutopilot } := by
  induction k generalizing b with
  | zero => simp
  | succ k ih =>
    rw [Function.iterate_succ_apply, ih]
    simp only [CarBuilder.toggleAutopilot]
    rcases Nat.mod_two_eq_zero_or_one k with h | h
    · have h2 : (k + 1) % 2 = 1 := by omega
      simp [h, h2]
    · have h2 : (k + 1) % 2 = 0 := by omega
      simp [h, h2]

/-! ## The remaining claims -/

/-- C12 (end-to-end scenario).  Whatever the signedness of `char` and the values found in
the uninitialised members, `main` returns; the factory starts from the empty seed, and
the three sizes printed by `listFlyweights`, after the six combustion builds, after the six
electro builds and after the car ("Toyota", "Prius", "White"), are 1, 2 and 3. -/
theorem main_sizes (env : Environment) :
    ∃ r, main env = some r ∧ r.sizes = [1, 2, 3] ∧ r.factory.size = 3 ∧ r.cars.length = 13 := by
  obtain ⟨r, hr, hs, hf, hc, _⟩ := main_spec env
  refine ⟨r, hr, hs, ?_, ?_⟩
  · rw [hf]
    decide
  · have := congrArg List.length hc
    simpa using this

/-- C13, evaluated where the code departs from it.  The constructor `Car(factory, "Toyota",
"Prius", "White")` on the empty factory, run in storage whose `hasAutopilot` byte holds
`true`, returns the node of `getFlyweight` and empty owner, plates, trip computer and buffs,
but `hasAutopilot` is `true`: `UniqueState()` initialises neither it nor `engine`.  So does
the last car of `main` in `dirtyEnvironment`. -/
theorem car_new_keeps_storage :
    (FlyweightFactory.new []).getFlyweight ⟨lit "Toyota", lit "Prius", lit "White"⟩
      = some ⟨⟨[(FlyweightFactory.hash prius, ⟨prius⟩)]⟩, 0, [Event.create]⟩ ∧
    Car.new (FlyweightFactory.new []) (lit "Toyota") (lit "Prius") (lit "White")
        true Engine.electric
      = some ⟨⟨[(FlyweightFactory.hash prius, ⟨prius⟩)]⟩,
          ⟨⟨[], [], [], true, Engine.electric, []⟩, 0⟩, [Event.create]⟩ ∧
    (main dirtyEnvironment).map (fun r => r.cars.getLast?.map (fun c => c.uniqueState))
      = some (some ⟨[], [], [], true, Engine.electric, []⟩) := by
  decide

/-- C14, evaluated where the code departs from it.  On a builder constructed in storage
whose `hasAutopilot` byte holds `true`, the car built after exactly `k` toggles has
`hasAutopilot = true` if and only if `k` is even: the constructor of `CarBuilder` does not
initialise the flag, and each `toggleAutopilot` flips whatever it finds.  In `main` run in
`dirtyEnvironment`, the cars of passes 0, 1, ..., 5 of either loop, built after 1, 2, ..., 6
toggles, have the flags false, true, false, true, false, true. -/
theorem toggles_on_dirty_storage (k : Nat) (engine0 : Engine) (f : FlyweightFactory)
    (carAutopilot0 : Bool) (carEngine0 : Engine) :
    (∃ r, CombustionCarBuilder.build
        (CarBuilder.toggleAutopilot^[k] (CarBuilder.new engine0 true))
        f carAutopilot0 carEngine0 = some r ∧
      (r.car.uniqueState.hasAutopilot = true ↔ k % 2 = 0)) ∧
    (main dirtyEnvironment).map
        (fun r => (r.cars.take 12).map (fun c => c.uniqueState.hasAutopilot))
      = some [false, true, false, true, false, true, false, true, false, true, false, true] := by
  refine ⟨?_, by decide⟩
  obtain ⟨g, hg⟩ := FlyweightFactory.getFlyweight_isSome f toyota
  refine ⟨_, build_combustion_eq _ f carAutopilot0 carEngine0 hg, ?_⟩
  rw [toggle_iterate]
  rcases Nat.mod_two_eq_zero_or_one k with h | h <;> simp [h, CarBuilder.new]

/-- C15 (build does not modify the assembler).  A `build` reads the builder and leaves it as
it is: a second `build` from the same builder returns a car with the same owner, plates,
trip computer, autopilot flag and buffs as the first, those of the builder, for both
overrides.  So buffs accumulate: in `main` the car built in pass `i` of either loop has the
buffs "Buff 0", ..., "Buff i" in that order, and the last car has none. -/
theorem build_keeps_builder (b : CarBuilder) (f : FlyweightFactory) (env : Environment) :
    (∀ h1 e1 h2 e2, ∃ r1 r2, CombustionCarBuilder.build b f h1 e1 = some r1 ∧
      CombustionCarBuilder.build b r1.factory h2 e2 = some r2 ∧
      r1.car.uniqueState = ⟨b.owner, b.plates, b.tripComputer, b.hasAutopilot,
        Engine.combustion, b.buffs⟩ ∧
      r2.car.uniqueState = r1.car.uniqueState) ∧
    (∀ h1 e1 h2 e2, ∃ r1 r2, ElectroCarBuilder.build b f h1 e1 = some r1 ∧
      ElectroCarBuilder.build b r1.factory h2 e2 = some r2 ∧
      r1.car.uniqueState = ⟨b.owner, b.plates, b.tripComputer, b.hasAutopilot,
        Engine.electric, b.buffs⟩ ∧
      r2.car.uniqueState = r1.car.uniqueState) ∧
    (∃ r, main env = some r ∧
      r.cars.map (fun c => c.uniqueState.buffs) =
        (List.range 6).map (fun i => (List.range (i + 1)).map buffName) ++
          (List.range 6).map (fun i => (List.range (i + 1)).map buffName) ++ [[]]) ∧
    (List.range 6).map buffName =
      [lit "Buff 0", lit "Buff 1", lit "Buff 2", lit "Buff 3", lit "Buff 4", lit "Buff 5"] := by
  refine ⟨fun h1 e1 h2 e2 => ?_, fun h1 e1 h2 e2 => ?_, ?_, by decide⟩
  · obtain ⟨g1, hg1⟩ := FlyweightFactory.getFlyweight_isSome f toyota
    obtain ⟨g2, hg2⟩ := FlyweightFactory.getFlyweight_isSome g1.factory toyota
    exact ⟨_, _, build_combustion_eq b f h1 e1 hg1, build_combustion_eq b g1.factory h2 e2 hg2,
      rfl, rfl⟩
  · obtain ⟨g1, hg1⟩ := FlyweightFactory.getFlyweight_isSome f tesla
    obtain ⟨g2, hg2⟩ := FlyweightFactory.getFlyweight_isSome g1.factory tesla
    exact ⟨_, _, build_electro_eq b f h1 e1 hg1, build_electro_eq b g1.factory h2 e2 hg2,
      rfl, rfl⟩
  · obtain ⟨r, hr, _, _, hc, _⟩ := main_spec env
    refine ⟨r, hr, ?_⟩
    rw [hc]
    have e : ((List.range 6).inits.tail).map (fun pre => pre.map buffName)
        = (List.range 6).map (fun i => (List.range (i + 1)).map buffName) := by decide
    rw [e]

/-- C16 (rendering).  The text printed for a car is owner, plates, brand and model in that
order, joined by single spaces, with brand and model read from the node of the factory
that the car points to.  In `main`, whatever the environment, the first line printed for
a car is "Person 0 711 Toyota Land Cruiser Prado". -/
theorem render_format (f : FlyweightFactory) (car : Car) (env : Environment) :
    (∀ ss, f.sharedStateAt car.flyweight = some ss →
      Car.render f car = some (car.uniqueState.owner ++ lit " " ++ car.uniqueState.plates
        ++ lit " " ++ ss.brand ++ lit " " ++ ss.model)) ∧
    lit " " = [32] ∧
    (∃ r, main env = some r ∧
      r.lines.head? = some (lit "Person 0 711 Toyota Land Cruiser Prado")) := by
  refine ⟨fun ss hss => ?_, by decide, ?_⟩
  · simp only [Car.render, hss]
  · obtain ⟨r, hr, _, _, _, hl⟩ := main_spec env
    exact ⟨r, hr, hl⟩

/-- Witness of C16: a car of owner "Person 0" pointing to node 0 of `factoryOne`. -/
theorem render_format_witness :
    factoryOne.sharedStateAt 0 = some toyota ∧
    Car.render factoryOne ⟨⟨lit "Person 0", lit "711", [], false, Engine.combustion, []⟩, 0⟩
      = some (lit "Person 0" ++ lit " " ++ lit "711" ++ lit " " ++ toyota.brand ++ lit " "
          ++ toyota.model) :=
  ⟨by decide,
    (render_format factoryOne ⟨⟨lit "Person 0", lit "711", [], false, Engine.combustion, []⟩, 0⟩
      plainEnvironment).1 toyota (by decide)⟩

/-- C17 (key consistency).  From the constructor on any seed, any run of `getFlyweight`
calls returns, and in the factory it leaves every node `(k, v)` has
`k = v.brand + " - " + v.model + " - " + v.color`. -/
theorem key_consistency (seed cs : List SharedState) :
    ∃ g ps out, getFlyweights (FlyweightFactory.new seed) cs = some (g, ps, out) ∧
      ∀ k v, (k, v) ∈ g.flyweights →
        k = v.sharedState.brand ++ lit " - " ++ v.sharedState.model ++ lit " - "
          ++ v.sharedState.color := by
  obtain ⟨g, ps, out, hg⟩ := FlyweightFactory.getFlyweights_isSome (FlyweightFactory.new seed) cs
  have hreach := getFlyweights_reachable (Reachable.init seed) hg
  have hcons := FlyweightFactory.keyConsistent_of_reachable hreach
  exact ⟨g, ps, out, hg, fun k v hkv => hcons (k, v) hkv⟩

/-- C19 (plates are not unique per owner).  The plates depend only on the multiset of the
bytes of the owner: for owners `s` and `t` that are permutations of each other, `setOwner`
gives the same plates.  The owners "ab" and "ba" both get "195". -/
theorem setOwner_plates_perm (charIsSigned : Bool) (b : CarBuilder) (s t : CppString)
    (hperm : s.Perm t) :
    (CarBuilder.setOwner charIsSigned b s).plates = (CarBuilder.setOwner charIsSigned b t).plates ∧
    (CarBuilder.setOwner charIsSigned b (lit "ab")).plates = lit "195" ∧
    (CarBuilder.setOwner charIsSigned b (lit "ba")).plates = lit "195" := by
  refine ⟨?_, ?_, ?_⟩
  · simp only [CarBuilder.setOwner, plateSum_eq_wrap]
    rw [(hperm.map (charToInt charIsSigned)).sum_eq]
  · simp only [CarBuilder.setOwner]
    cases charIsSigned <;> decide
  · simp only [CarBuilder.setOwner]
    cases charIsSigned <;> decide

/-- Witness of C19: the owners "ab" and "ba". -/
theorem setOwner_plates_perm_witness :
    (lit "ab").Perm (lit "ba") ∧
    (CarBuilder.setOwner true freshBuilder (lit "ab")).plates
      = (CarBuilder.setOwner true freshBuilder (lit "ba")).plates :=
  have hab : lit "ab" = [97, 98] := by decide
  have hba : lit "ba" = [98, 97] := by decide
  have hperm : (lit "ab").Perm (lit "ba") := by
    rw [hab, hba]
    exact List.Perm.swap _ _ _
  ⟨hperm, (setOwner_plates_perm true freshBuilder (lit "ab") (lit "ba") hperm).1⟩

/-! ## The map as a finite function -/

namespace UnorderedMap

theorem find_eq_none_iff (m : UnorderedMap) (key : CppString) :
    find m key = none ↔ key ∉ keys m := by
  induction m with
  | nil => simp [find, keys]
  | cons e rest ih =>
    obtain ⟨k, v⟩ := e
    by_cases hk : k = key
    · simp [find, keys, hk]
    · have hk2 : ¬ key = k := fun h => hk h.symm
      simp only [find, hk, if_false, Option.map_eq_none', ih]
      simp [keys, hk2]

theorem subscriptAssign_nil (key : CppString) (source : Flyweight) :
    subscriptAssign [] key source = [(key, source)] := by
  simp [subscriptAssign, subscript, find, assignAt, assign_eq]

theorem subscriptAssign_cons (k0 : CppString) (v0 : Flyweight) (rest : UnorderedMap)
    (key : CppString) (source : Flyweight) :
    subscriptAssign ((k0, v0) :: rest) key source =
      if k0 = key then (k0, source) :: rest else (k0, v0) :: subscriptAssign rest key source := by
  by_cases hk : k0 = key
  · simp [subscriptAssign, subscript, find, hk, assignAt, assign_eq]
  · cases hf : find rest key with
    | none =>
      have e : find ((k0, v0) :: rest) key = none := by simp [find, hk, hf]
      simp only [subscriptAssign, subscript, e, hf, hk, if_false]
      simp [assignAt]
    | some p =>
      have e : find ((k0, v0) :: rest) key = some (p + 1) := by simp [find, hk, hf]
      simp only [subscriptAssign, subscript, e, hf, hk, if_false]
      simp [assignAt]

theorem mem_keys_subscriptAssign (m : UnorderedMap) (key : CppString) (source : Flyweight)
    (k : CppString) : k ∈ keys (subscriptAssign m key source) ↔ k ∈ keys m ∨ k = key := by
  induction m with
  | nil => simp [subscriptAssign_nil, keys]
  | cons e rest ih =>
    obtain ⟨k0, v0⟩ := e
    rw [subscriptAssign_cons]
    by_cases hk : k0 = key
    · subst hk
      simp only [if_true, keys, List.map_cons, List.mem_cons]
      tauto
    · simp only [hk, if_false]
      simp only [keys, List.map_cons, List.mem_cons] at ih ⊢
      rw [ih]
      tauto

theorem nodup_keys_subscriptAssign (m : UnorderedMap) (key : CppString) (source : Flyweight)
    (h : (keys m).Nodup) : (keys (subscriptAssign m key source)).Nodup := by
  induction m with
  | nil => simp [subscriptAssign_nil, keys]
  | cons e rest ih =>
    obtain ⟨k0, v0⟩ := e
    rw [subscriptAssign_cons]
    by_cases hk : k0 = key
    · simpa [hk, keys] using h
    · simp only [hk, if_false]
      have h2 : k0 ∉ keys rest ∧ (keys rest).Nodup := by simpa [keys] using h
      have h3 : k0 ∉ keys (subscriptAssign rest key source) := by
        rw [mem_keys_subscriptAssign]
        rintro (hm | hm)
        · exact h2.1 hm
        · exact hk hm
      have h4 := ih h2.2
      simp only [keys, List.map_cons, List.nodup_cons]
      exact ⟨h3, h4⟩

theorem length_eq_dedup_length {l l1 : List CppString} (hn : l.Nodup)
    (h : ∀ k, k ∈ l ↔ k ∈ l1) : l.length = l1.dedup.length := by
  have hp : l.Perm l1.dedup :=
    (List.perm_ext_iff_of_nodup hn (List.nodup_dedup l1)).2
      (fun k => by rw [h k, List.mem_dedup])
  exact hp.length_eq

end UnorderedMap

namespace FlyweightFactory

theorem lookup_nil (key : CppString) : (⟨[]⟩ : FlyweightFactory).lookup key = none := rfl

theorem lookup_cons (k0 : CppString) (v0 : Flyweight) (rest : UnorderedMap) (key : CppString) :
    (⟨(k0, v0) :: rest⟩ : FlyweightFactory).lookup key =
      if k0 = key then some v0.sharedState else (⟨rest⟩ : FlyweightFactory).lookup key := by
  by_cases hk : k0 = key
  · simp [lookup, UnorderedMap.find, hk, sharedStateAt, UnorderedMap.deref,
      Flyweight.getSharedState]
  · cases hf : UnorderedMap.find rest key with
    | none => simp [lookup, UnorderedMap.find, hk, hf]
    | some p =>
      simp [lookup, UnorderedMap.find, hk, hf, sharedStateAt, UnorderedMap.deref]

theorem lookup_append_single (m : UnorderedMap) (k0 : CppString) (v0 : Flyweight)
    (key : CppString) :
    (⟨m ++ [(k0, v0)]⟩ : FlyweightFactory).lookup key =
      ((⟨m⟩ : FlyweightFactory).lookup key).or (if k0 = key then some v0.sharedState else none) := by
  induction m with
  | nil =>
    rw [List.nil_append, lookup_cons, lookup_nil]
    rfl
  | cons e rest ih =>
    obtain ⟨k, v⟩ := e
    rw [List.cons_append, lookup_cons, lookup_cons, ih]
    by_cases hk : k = key <;> simp [hk]

theorem lookup_subscriptAssign (m : UnorderedMap) (s : SharedState) (key : CppString) :
    (⟨UnorderedMap.subscriptAssign m (hash s) (Flyweight.ofSharedState s)⟩ :
        FlyweightFactory).lookup key =
      if hash s = key then some s else (⟨m⟩ : FlyweightFactory).lookup key := by
  induction m with
  | nil =>
    rw [UnorderedMap.subscriptAssign_nil, lookup_cons, lookup_nil]
    rfl
  | cons e rest ih =>
    obtain ⟨k, v⟩ := e
    rw [UnorderedMap.subscriptAssign_cons]
    by_cases hk : k = hash s
    · subst hk
      simp only [if_true, lookup_cons]
      by_cases hk2 : hash s = key <;> simp [hk2, Flyweight.ofSharedState]
    · simp only [hk, if_false, lookup_cons, ih]
      by_cases hk2 : hash s = key
      · have hk3 : ¬ k = key := fun h => hk (h.trans hk2.symm)
        simp [hk2, hk3]
      · simp [hk2]

theorem lookup_eq_some_iff (f : FlyweightFactory) (key : CppString) (s : SharedState) :
    f.lookup key = some s ↔
      ∃ p, UnorderedMap.find f.flyweights key = some p ∧ f.sharedStateAt p = some s := by
  simp [lookup, Option.bind_eq_some]

/-! ## Seeding -/

theorem seed_spec (seed : List SharedState) (m : UnorderedMap) :
    (∀ k, k ∈ UnorderedMap.keys (seed.foldl
        (fun flyweights sharedState =>
          UnorderedMap.subscriptAssign flyweights (hash sharedState)
            (Flyweight.ofSharedState sharedState)) m)
      ↔ k ∈ UnorderedMap.keys m ∨ k ∈ seed.map hash) ∧
    ((UnorderedMap.keys m).Nodup → (UnorderedMap.keys (seed.foldl
        (fun flyweights sharedState =>
          UnorderedMap.subscriptAssign flyweights (hash sharedState)
            (Flyweight.ofSharedState sharedState)) m)).Nodup) ∧
    (∀ k, (⟨seed.foldl
        (fun flyweights sharedState =>
          UnorderedMap.subscriptAssign flyweights (hash sharedState)
            (Flyweight.ofSharedState sharedState)) m⟩ : FlyweightFactory).lookup k
      = (seed.reverse.find? (fun s => decide (hash s = k))).or
          ((⟨m⟩ : FlyweightFactory).lookup k)) := by
  induction seed generalizing m with
  | nil => simp
  | cons s rest ih =>
    obtain ⟨h1, h2, h3⟩ := ih (UnorderedMap.subscriptAssign m (hash s) (Flyweight.ofSharedState s))
    simp only [List.foldl_cons]
    refine ⟨fun k => ?_, fun hn => ?_, fun k => ?_⟩
    · rw [h1, UnorderedMap.mem_keys_subscriptAssign]
      simp only [List.map_cons, List.mem_cons]
      tauto
    · exact h2 (UnorderedMap.nodup_keys_subscriptAssign _ _ _ hn)
    · rw [h3, lookup_subscriptAssign, List.reverse_cons, List.find?_append]
      cases List.find? (fun s => decide (hash s = k)) rest.reverse with
      | some x => simp
      | none =>
        by_cases hk : hash s = k <;> simp [hk, List.find?]

/-- C11 (seeding is last-write-wins).  After the constructor has run on `seed`, the map
holds exactly the keys of the seeds, each once, so its size is the number of distinct keys
among the seeds; and the state stored under a key is the last seed of the sequence that
has this key (the first one found from the end). -/
theorem new_last_write_wins (seed : List SharedState) :
    (∀ k, UnorderedMap.find (new seed).flyweights k ≠ none ↔ ∃ s ∈ seed, hash s = k) ∧
    (UnorderedMap.keys (new seed).flyweights).Nodup ∧
    (new seed).size = ((seed.map hash).dedup).length ∧
    (∀ k, (new seed).lookup k = seed.reverse.find? (fun s => decide (hash s = k))) ∧
    (∀ k s, seed.reverse.find? (fun x => decide (hash x = k)) = some s ↔
      ∃ p, UnorderedMap.find (new seed).flyweights k = some p ∧
        (new seed).sharedStateAt p = some s) := by
  obtain ⟨h1, h2, h3⟩ := seed_spec seed []
  have hkeys : ∀ k, k ∈ UnorderedMap.keys (new seed).flyweights ↔ k ∈ seed.map hash := by
    intro k
    have := h1 k
    simpa [UnorderedMap.keys] using this
  have hnodup : (UnorderedMap.keys (new seed).flyweights).Nodup := h2 (by simp [UnorderedMap.keys])
  have hlookup : ∀ k, (new seed).lookup k
      = seed.reverse.find? (fun s => decide (hash s = k)) := by
    intro k
    have := h3 k
    rw [lookup_nil, Option.or_none] at this
    exact this
  refine ⟨fun k => ?_, hnodup, ?_, hlookup, fun k s => ?_⟩
  · rw [Ne, UnorderedMap.find_eq_none_iff, not_not, hkeys]
    simp
  · have := UnorderedMap.length_eq_dedup_length hnodup hkeys
    simpa [size, UnorderedMap.size, UnorderedMap.keys] using this
  · rw [← hlookup k, lookup_eq_some_iff]

/-! ## Runs of `getFlyweight` -/

theorem lookup_isSome_of_mem {f : FlyweightFactory} {k : CppString}
    (h : k ∈ UnorderedMap.keys f.flyweights) : ∃ v, f.lookup k = some v := by
  cases hf : UnorderedMap.find f.flyweights k with
  | none => exact absurd h ((UnorderedMap.find_eq_none_iff _ _).1 hf)
  | some p =>
    obtain ⟨v, hv⟩ := sharedStateAt_lt (UnorderedMap.find_lt hf)
    exact ⟨v, (lookup_eq_some_iff f k v).2 ⟨p, hf, hv⟩⟩

theorem getFlyweight_of_mem {f : FlyweightFactory} {c : SharedState} {r : Result}
    (h : f.getFlyweight c = some r) (hk : hash c ∈ UnorderedMap.keys f.flyweights) :
    r.factory = f ∧ r.out = [Event.reuse] := by
  cases hf : UnorderedMap.find f.flyweights (hash c) with
  | none => exact absurd hk ((UnorderedMap.find_eq_none_iff _ _).1 hf)
  | some p =>
    rw [getFlyweight_of_find_some hf] at h
    cases h
    exact ⟨rfl, rfl⟩

theorem getFlyweight_of_not_mem {f : FlyweightFactory} {c : SharedState} {r : Result}
    (h : f.getFlyweight c = some r) (hk : hash c ∉ UnorderedMap.keys f.flyweights) :
    r.factory = ⟨f.flyweights ++ [(hash c, ⟨c⟩)]⟩ ∧ r.out = [Event.create] := by
  have hf := (UnorderedMap.find_eq_none_iff _ _).2 hk
  rw [getFlyweight_of_find_none hf] at h
  cases h
  exact ⟨rfl, rfl⟩

theorem getFlyweights_spec (cs : List SharedState) (f g : FlyweightFactory) (ps : List Nat)
    (out : List Event) (h : getFlyweights f cs = some (g, ps, out)) :
    (∀ k, k ∈ UnorderedMap.keys g.flyweights ↔
      k ∈ UnorderedMap.keys f.flyweights ∨ k ∈ cs.map hash) ∧
    ((UnorderedMap.keys f.flyweights).Nodup → (UnorderedMap.keys g.flyweights).Nodup) ∧
    g.size = f.size + out.count Event.create ∧
    out.length = cs.length ∧
    (∀ k, g.lookup k = (f.lookup k).or (cs.find? (fun c => decide (hash c = k)))) := by
  induction cs generalizing f ps out with
  | nil =>
    simp only [getFlyweights, Option.some.injEq, Prod.mk.injEq] at h
    obtain ⟨rfl, _, rfl⟩ := h
    simp
  | cons c rest ih =>
    obtain ⟨r, hr⟩ := getFlyweight_isSome f c
    obtain ⟨g1, ps1, out1, hg⟩ := getFlyweights_isSome r.factory rest
    simp only [getFlyweights, hr, hg, Option.some.injEq, Prod.mk.injEq] at h
    obtain ⟨rfl, _, rfl⟩ := h
    obtain ⟨i1, i2, i3, i4, i5⟩ := ih r.factory ps1 out1 hg
    by_cases hk : hash c ∈ UnorderedMap.keys f.flyweights
    · obtain ⟨e1, e2⟩ := getFlyweight_of_mem hr hk
      rw [e1] at i1 i2 i3 i5
      refine ⟨fun k => ?_, i2, ?_, ?_, fun k => ?_⟩
      · rw [i1]
        simp only [List.map_cons, List.mem_cons]
        constructor
        · rintro (h | h)
          · exact Or.inl h
          · exact Or.inr (Or.inr h)
        · rintro (h | h | h)
          · exact Or.inl h
          · exact Or.inl (h ▸ hk)
          · exact Or.inr h
      · rw [i3, e2]
        simp [List.count_cons]
      · rw [e2]
        simp [i4]
      · rw [i5]
        by_cases hck : hash c = k
        · obtain ⟨v, hv⟩ := lookup_isSome_of_mem (hck ▸ hk)
          simp [hv]
        · simp [List.find?, hck]
    · obtain ⟨e1, e2⟩ := getFlyweight_of_not_mem hr hk
      rw [e1] at i1 i2 i3 i5
      refine ⟨fun k => ?_, fun hn => ?_, ?_, ?_, fun k => ?_⟩
      · rw [i1]
        simp only [UnorderedMap.keys, List.map_append, List.map_cons, List.map_nil,
          List.mem_append, List.mem_singleton, List.mem_cons]
        tauto
      · apply i2
        simp only [UnorderedMap.keys, List.map_append, List.map_cons, List.map_nil]
        rw [List.nodup_append]
        refine ⟨hn, by simp, ?_⟩
        intro a ha hb
        rw [List.mem_singleton] at hb
        exact hk (hb ▸ ha)
      · rw [i3, e2]
        simp [size, UnorderedMap.size, List.count_cons]
        omega
      · rw [e2]
        simp [i4]
      · rw [i5, lookup_append_single]
        cases f.lookup k with
        | some v => simp
        | none =>
          by_cases hck : hash c = k <;> simp [List.find?, hck]

/-- C18 (size counts distinct keys).  For every sequence of candidates, the run of
`getFlyweight` calls on the empty factory returns and prints one line per call; the size of
the factory it leaves is the number of distinct keys among the candidates and is the number
of "create" lines; and the state stored under a key is the first candidate of the sequence
that has this key. -/
theorem getFlyweights_first_write_wins (cs : List SharedState) :
    ∃ g ps out, getFlyweights (new []) cs = some (g, ps, out) ∧
      g.size = ((cs.map hash).dedup).length ∧
      out.count Event.create = g.size ∧
      out.length = cs.length ∧
      (∀ k, g.lookup k = cs.find? (fun c => decide (hash c = k))) ∧
      (∀ k c, cs.find? (fun x => decide (hash x = k)) = some c ↔
        ∃ p, UnorderedMap.find g.flyweights k = some p ∧ g.sharedStateAt p = some c) := by
  obtain ⟨g, ps, out, hg⟩ := getFlyweights_isSome (new []) cs
  obtain ⟨h1, h2, h3, h4, h5⟩ := getFlyweights_spec cs (new []) g ps out hg
  have hkeys : ∀ k, k ∈ UnorderedMap.keys g.flyweights ↔ k ∈ cs.map hash := by
    intro k
    have := h1 k
    simpa [new, UnorderedMap.keys] using this
  have hnodup : (UnorderedMap.keys g.flyweights).Nodup := h2 (by simp [new, UnorderedMap.keys])
  have hsize : g.size = ((cs.map hash).dedup).length := by
    have := UnorderedMap.length_eq_dedup_length hnodup hkeys
    simpa [size, UnorderedMap.size, UnorderedMap.keys] using this
  have hlookup : ∀ k, g.lookup k = cs.find? (fun c => decide (hash c = k)) := by
    intro k
    have := h5 k
    have e : (new []).lookup k = none := rfl
    rw [e, Option.none_or] at this
    exact this
  refine ⟨g, ps, out, hg, hsize, ?_, h4, hlookup, fun k c => ?_⟩
  · have e : (new []).size = 0 := rfl
    rw [h3, e]
    omega
  · rw [← hlookup k, lookup_eq_some_iff]

end FlyweightFactory

end OOPFlyweight
